import Mathlib

/-!
# A shallow embedding of `GPUWorkQueue` (src/GPUWorkQueue.tsx)

This file models the work scheduler and bind-group cache of the repository's
`GPUWorkQueue` class and proves the spec's claims about it.

Modelling decisions (all mirroring the TypeScript source):

* A JavaScript `Map` is an insertion-ordered association list.  `Map.set`
  overwrites an existing key in place (keeping its position) and otherwise
  appends; `Map.delete` removes; `forEach`/`values` iterate in that order.
  Keys of a `Map` built this way are unique, so the per-key update functions
  below touch exactly one entry.
* A `GPUWork` recorder is opaque code that records commands into an encoder;
  we model it as either a labelled draw (appending its label to the command
  list) or a recorder that throws.
* `GPUBindingResource` values are compared by JavaScript reference equality
  (`===`); we name resources by natural numbers with decidable equality,
  and `null` is `Option.none`.
* The closures returned by `reserveSlot` and `makeBinding` capture mutable
  objects.  A work-slot handle is just its numeric id (the wrapper object is
  uniquely determined by it).  A binding setter captures a specific
  `BindingData` object; when `makeBinding` is called again at the same
  identity the old object is marked `dropped` and replaced in the map.  We
  encode that captured-object identity with a generation number (`gen`): a
  setter handle is live exactly when the map still holds its generation,
  which is equivalent to the source's `binding.dropped` check.
* `onHasWork` notifications are counted in the field `notified`.
* The `WeakMap<GPUPipelineBase, GPUBindGroup>` compilation cache is keyed by
  pipeline-object identity; we name pipeline objects by naturals.  The
  `compiled` field's `undefined | null | WeakMap` states are the three
  constructors of `CompiledCache`.
-/

/-- Association-list lookup with JavaScript `Map.get` semantics. -/
def mapGet {κ β : Type} [DecidableEq κ] (m : List (κ × β)) (k : κ) : Option β :=
  (m.find? (fun e => e.1 == k)).map (fun e => e.2)

/-- Association-list update with JavaScript `Map.set` semantics: overwrite in
place when the key is present, append otherwise. -/
def mapSet {κ β : Type} [DecidableEq κ] (m : List (κ × β)) (k : κ) (v : β) : List (κ × β) :=
  if m.any (fun e => e.1 == k) then
    m.map (fun e => if e.1 == k then (k, v) else e)
  else
    m ++ [(k, v)]

/-- Association-list removal with JavaScript `Map.delete` semantics. -/
def mapDelete {κ β : Type} [DecidableEq κ] (m : List (κ × β)) (k : κ) : List (κ × β) :=
  m.filter (fun e => !(e.1 == k))

/-- Modify the value stored at a key, in place. This models a mutation of the
object held in a `Map` (object identity is the key). -/
def mapModify {κ β : Type} [DecidableEq κ] (m : List (κ × β)) (k : κ) (f : β → β) :
    List (κ × β) :=
  m.map (fun e => if e.1 == k then (e.1, f e.2) else e)

/-- The keys of a map, in iteration order. -/
def mapKeys {κ β : Type} (m : List (κ × β)) : List κ :=
  m.map Prod.fst

/-- A recorder installed in a work slot: `GPUWork = (encoder) => void`.
`draw label` records the command `label` into the encoder; `throws` raises
an exception while recording. -/
inductive GPUWork where
  | draw (label : String)
  | throws
deriving DecidableEq

/-- `PipelineId = string | undefined`. -/
abbrev PipelineId := Option String

/-- A resource reference (`GPUBindingResource`), named by a natural number and
compared by reference equality; `null` is `Option.none` at use sites. -/
abbrev Resource := Nat

/-- The source's `BindingData` record `{ id, dropped, resource }`.  The
`dropped` flag of the object captured by a superseded setter closure is
encoded by the generation number `gen`: the captured object is dropped
exactly when the map has moved to a later generation at this identity. -/
structure BindingData where
  id : Nat
  gen : Nat
  resource : Option Resource
deriving DecidableEq

/-- A compiled `GPUBindGroup` object, as produced by
`device.createBindGroup({ layout: pipeline.getBindGroupLayout(group.id), entries })`.
We record the pipeline object, the group index (determining the layout), and
the ordered entry list `(binding index, resource)`. -/
structure BGObj where
  pobj : Nat
  gid : Nat
  entries : List (Nat × Resource)
deriving DecidableEq

/-- The `compiled` field of `BindGroupData`:
`undefined | null | WeakMap<GPUPipelineBase, GPUBindGroup>`. -/
inductive CompiledCache where
  | undef
  | emptyGroup
  | cache (m : List (Nat × BGObj))
deriving DecidableEq

/-- The source's `BindGroupData` record. -/
structure BindGroupData where
  id : Nat
  dropped : Bool
  compiled : CompiledCache
  bindings : List (Nat × BindingData)
deriving DecidableEq

/-- The source's `PipelineData` record. -/
structure PipelineData where
  id : PipelineId
  dropped : Bool
  groups : List (Nat × BindGroupData)
deriving DecidableEq

/-- The mutable state of a `GPUWorkQueue` instance.  `notified` counts the
calls made to the `onHasWork` callback. -/
structure Queue where
  persistentWork : List (Nat × GPUWork)
  oneTimeWork : List (Nat × GPUWork)
  pipelines : List (PipelineId × PipelineData)
  hasWork : Bool
  notified : Nat
  nextWorkId : Nat
  nextGen : Nat
deriving DecidableEq

/-- A freshly constructed `GPUWorkQueue`. -/
def initQueue : Queue :=
  { persistentWork := [], oneTimeWork := [], pipelines := [],
    hasWork := false, notified := 0, nextWorkId := 1, nextGen := 0 }

/-- `GPUWorkQueue._markWork`: set `hasWork` and fire `onHasWork` only on the
false-to-true transition. -/
def markWork (q : Queue) : Queue :=
  if q.hasWork then q else { q with hasWork := true, notified := q.notified + 1 }

/-- `GPUWorkQueue.reserveSlot`: allocate a fresh slot id.  The returned
update closure is `updateWork` applied to this id. -/
def reserveSlot (q : Queue) : Queue × Nat :=
  ({ q with nextWorkId := q.nextWorkId + 1 }, q.nextWorkId)

/-- The closure returned by `reserveSlot`, called with `(update, everyFrame)`.
With a recorder it installs it into the persistent or one-time set, removes
the slot from the other set, and marks work; with `null` it removes the slot
from both sets and does not mark work. -/
def updateWork (q : Queue) (slot : Nat) (update : Option GPUWork) (everyFrame : Bool) :
    Queue :=
  match update with
  | some f =>
    if everyFrame then
      markWork { q with
        persistentWork := mapSet q.persistentWork slot f,
        oneTimeWork := mapDelete q.oneTimeWork slot }
    else
      markWork { q with
        oneTimeWork := mapSet q.oneTimeWork slot f,
        persistentWork := mapDelete q.persistentWork slot }
  | none =>
    { q with
      oneTimeWork := mapDelete q.oneTimeWork slot,
      persistentWork := mapDelete q.persistentWork slot }

/-- A `PipelineData` as first created by `makeBinding`. -/
def freshPipeline (pid : PipelineId) : PipelineData :=
  { id := pid, dropped := false, groups := [] }

/-- A `BindGroupData` as first created by `makeBinding`. -/
def freshGroup (gid : Nat) : BindGroupData :=
  { id := gid, dropped := false, compiled := .undef, bindings := [] }

/-- `GPUWorkQueue.makeBinding`: create (or supersede) the binding at
`(pipelineId, groupId, id)`.  When the group pre-existed, its compiled cache
is reset to `undefined` and the previous binding at this id is dropped (the
replacement gets a fresh generation, so the old setter's captured object is
never live again).  Returns the generation of the new setter handle. -/
def makeBinding (q : Queue) (pid : PipelineId) (gid bid : Nat) : Queue × Nat :=
  let gen := q.nextGen
  let pipeline := (mapGet q.pipelines pid).getD (freshPipeline pid)
  let group0 := (mapGet pipeline.groups gid).getD (freshGroup gid)
  let group1 :=
    if (mapGet pipeline.groups gid).isSome then { group0 with compiled := .undef }
    else group0
  let binding : BindingData := { id := bid, gen := gen, resource := none }
  let group2 := { group1 with bindings := mapSet group1.bindings bid binding }
  let pipeline2 := { pipeline with groups := mapSet pipeline.groups gid group2 }
  ({ q with pipelines := mapSet q.pipelines pid pipeline2, nextGen := gen + 1 }, gen)

/-- Look up the `BindingData` currently stored at an identity. -/
def bindingGet (q : Queue) (pid : PipelineId) (gid bid : Nat) : Option BindingData :=
  (mapGet q.pipelines pid).bind fun p =>
    (mapGet p.groups gid).bind fun g =>
      mapGet g.bindings bid

/-- Look up the `BindGroupData` currently stored at `(pid, gid)`. -/
def groupGet (q : Queue) (pid : PipelineId) (gid : Nat) : Option BindGroupData :=
  (mapGet q.pipelines pid).bind fun p => mapGet p.groups gid

/-- Mutate the group object stored at `(pid, gid)` in place. -/
def modifyGroup (q : Queue) (pid : PipelineId) (gid : Nat)
    (f : BindGroupData → BindGroupData) : Queue :=
  { q with
    pipelines := mapModify q.pipelines pid
      (fun p => { p with groups := mapModify p.groups gid f }) }

/-- The setter closure returned by `makeBinding`, identified by its captured
binding's generation `gen`.  It is a no-op when the captured binding was
dropped (the map's generation at the identity differs from `gen`) or when the
new resource is reference-equal to the stored one; otherwise it stores the
resource, invalidates the owning group's compiled cache, and marks work. -/
def setResource (q : Queue) (pid : PipelineId) (gid bid gen : Nat)
    (resource : Option Resource) : Queue :=
  match bindingGet q pid gid bid with
  | none => q
  | some b =>
    if b.gen ≠ gen then q
    else if resource = b.resource then q
    else
      markWork (modifyGroup q pid gid fun g =>
        { g with
          compiled := .undef,
          bindings := mapModify g.bindings bid
            (fun b2 => { b2 with resource := resource }) })

/-- The entry list built by `forEachBindGroup` from a group's bindings: the
`(binding id, resource)` pairs of the bindings holding a non-null resource,
in map iteration order. -/
def groupEntries (g : BindGroupData) : List (Nat × Resource) :=
  g.bindings.filterMap fun e => e.2.resource.map (fun r => (e.2.id, r))

/-- The outcome of visiting one group inside `forEachBindGroup`. -/
structure GroupResolution where
  group : BindGroupData
  visit : Option BGObj
  created : Bool
deriving DecidableEq

/-- The per-group body of `forEachBindGroup`: skip a group cached as empty,
reuse a cached compiled object for this pipeline, otherwise build the entry
list and either mark the group empty or create and cache a bind group.
`created` records whether `device.createBindGroup` was called. -/
def resolveGroup (pobj : Nat) (g : BindGroupData) : GroupResolution :=
  match g.compiled with
  | .emptyGroup => { group := g, visit := none, created := false }
  | c =>
    let cached := match c with
      | .cache m => mapGet m pobj
      | _ => none
    match cached with
    | some bg => { group := g, visit := some bg, created := false }
    | none =>
      let entries := groupEntries g
      if entries.isEmpty then
        { group := { g with compiled := .emptyGroup }, visit := none, created := false }
      else
        let bg : BGObj := { pobj := pobj, gid := g.id, entries := entries }
        let m0 := match c with
          | .cache m => m
          | _ => []
        { group := { g with compiled := .cache (mapSet m0 pobj bg) },
          visit := some bg, created := true }

/-- `GPUWorkQueue.forEachBindGroup`: iterate the groups registered under
`pid` in map order, resolving each against the concrete pipeline object
`pobj`.  Returns the updated state, the list of `(bind group, group id)`
pairs passed to the visit callback, and the list of bind groups freshly
created by the device. -/
def forEachBindGroup (q : Queue) (pid : PipelineId) (pobj : Nat) :
    Queue × List (BGObj × Nat) × List BGObj :=
  match mapGet q.pipelines pid with
  | none => (q, [], [])
  | some pdata =>
    let results := pdata.groups.map fun e => (e.1, resolveGroup pobj e.2)
    let visits := results.filterMap fun e => e.2.visit.map (fun bg => (bg, e.2.group.id))
    let creates := results.filterMap fun e => if e.2.created then e.2.visit else none
    let pipelines2 := mapModify q.pipelines pid
      (fun p => { p with groups := results.map fun e => (e.1, e.2.group) })
    ({ q with pipelines := pipelines2 }, visits, creates)

/-- The comparator passed to `renders.sort((a, b) => a.id - b.id)`:
ascending slot id. -/
def slotLe (a b : Nat × GPUWork) : Prop :=
  a.1 ≤ b.1

instance : DecidableRel slotLe := fun a b => Nat.decLe a.1 b.1

instance : IsTotal (Nat × GPUWork) slotLe := ⟨fun a b => Nat.le_total a.1 b.1⟩

instance : IsTrans (Nat × GPUWork) slotLe := ⟨fun _ _ _ h1 h2 => Nat.le_trans h1 h2⟩

/-- The work list captured by `runQueued`: all persistent then one-time
entries, sorted ascending by slot id (`renders.sort((a, b) => a.id - b.id)`;
`Array.prototype.sort` is a stable sort, and a stable sort's output is
determined by the comparator, so insertion sort is extensionally the same). -/
def flushList (q : Queue) : List (Nat × GPUWork) :=
  List.insertionSort slotLe (q.persistentWork ++ q.oneTimeWork)

/-- Run recorders in order against the encoder, accumulating recorded
commands; a throwing recorder aborts the batch. -/
def execRecs : List (Nat × GPUWork) → List String → Except Unit (List String)
  | [], acc => .ok acc
  | (_, .draw l) :: rest, acc => execRecs rest (acc ++ [l])
  | (_, .throws) :: _, _ => .error ()

/-- What a call to `runQueued` did at the device: returned early with no
pending work (no submission), submitted exactly one command buffer, or
propagated a recorder's exception (no submission). -/
inductive FlushOutcome where
  | empty
  | submitted (buffer : List String)
  | threw
deriving DecidableEq

/-- `GPUWorkQueue.runQueued`: clear `hasWork`, capture persistent plus
one-time work, clear the one-time set, and unless the capture is empty run
every recorder in ascending id order and submit one command buffer. -/
def runQueued (q : Queue) : Queue × FlushOutcome :=
  let q2 := { q with hasWork := false, oneTimeWork := [] }
  if (q.persistentWork ++ q.oneTimeWork).isEmpty then (q2, .empty)
  else
    match execRecs (flushList q) [] with
    | .error _ => (q2, .threw)
    | .ok cmds => (q2, .submitted cmds)

/-- One externally triggered operation on a `GPUWorkQueue`: the public API
surface through which every reachable state arises. -/
inductive Op where
  | reserve
  | update (slot : Nat) (rec : Option GPUWork) (everyFrame : Bool)
  | makeB (pid : PipelineId) (gid bid : Nat)
  | setRes (pid : PipelineId) (gid bid gen : Nat) (resource : Option Resource)
  | flush
  | resolve (pid : PipelineId) (pobj : Nat)
deriving DecidableEq

/-- Apply one operation to the queue state. -/
def step (q : Queue) : Op → Queue
  | .reserve => (reserveSlot q).1
  | .update slot r ef => updateWork q slot r ef
  | .makeB pid gid bid => (makeBinding q pid gid bid).1
  | .setRes pid gid bid gen r => setResource q pid gid bid gen r
  | .flush => (runQueued q).1
  | .resolve pid pobj => (forEachBindGroup q pid pobj).1

/-- Execute a call sequence. -/
def exec (s : List Op) (q : Queue) : Queue :=
  s.foldl step q

/-! ## Association-list (JavaScript `Map`) lemmas -/

theorem mapGet_cons {κ β : Type} [DecidableEq κ] (e : κ × β) (m : List (κ × β)) (k : κ) :
    mapGet (e :: m) k = if e.1 = k then some e.2 else mapGet (κ := κ) m k := by
  by_cases h : e.1 = k <;> simp [mapGet, List.find?_cons, h]

theorem any_key_iff {κ β : Type} [DecidableEq κ] (m : List (κ × β)) (k : κ) :
    (m.any fun e => e.1 == k) = true ↔ k ∈ mapKeys m := by
  simp [mapKeys, List.any_eq_true, List.mem_map, beq_iff_eq]

theorem mapGet_replace_self {κ β : Type} [DecidableEq κ] (m : List (κ × β)) (k : κ) (v : β)
    (h : (m.any fun e => e.1 == k) = true) :
    mapGet (m.map fun e => if e.1 == k then (k, v) else e) k = some v := by
  induction m with
  | nil => simp at h
  | cons e m ih =>
    by_cases hek : e.1 = k
    · simp [hek, mapGet_cons]
    · have h2 : (m.any fun e => e.1 == k) = true := by
        simp only [List.any_cons] at h
        rcases Bool.or_eq_true_iff.mp h with h | h
        · exact absurd (beq_iff_eq.mp h) hek
        · exact h
      have hbeq : (e.1 == k) = false := by simp [hek]
      simp only [List.map_cons, hbeq, Bool.false_eq_true, if_false]
      rw [mapGet_cons, if_neg hek]
      simpa using ih h2

theorem mapGet_append_single_self {κ β : Type} [DecidableEq κ] (m : List (κ × β)) (k : κ)
    (v : β) (h : (m.any fun e => e.1 == k) = false) :
    mapGet (m ++ [(k, v)]) k = some v := by
  induction m with
  | nil => simp [mapGet]
  | cons e m ih =>
    simp only [List.any_cons, Bool.or_eq_false_iff] at h
    have hek : ¬e.1 = k := by
      intro hc
      simp [hc] at h
    rw [List.cons_append, mapGet_cons, if_neg hek]
    exact ih h.2

theorem mapGet_mapSet_self {κ β : Type} [DecidableEq κ] (m : List (κ × β)) (k : κ) (v : β) :
    mapGet (mapSet m k v) k = some v := by
  unfold mapSet
  by_cases h : (m.any fun e => e.1 == k) = true
  · rw [if_pos h]
    exact mapGet_replace_self m k v h
  · rw [if_neg h]
    exact mapGet_append_single_self m k v (Bool.eq_false_iff.mpr h)

theorem mapGet_replace_ne {κ β : Type} [DecidableEq κ] (m : List (κ × β)) (k k2 : κ) (v : β)
    (h : k2 ≠ k) :
    mapGet (m.map fun e => if e.1 == k then (k, v) else e) k2 = mapGet m k2 := by
  induction m with
  | nil => simp [mapGet]
  | cons e m ih =>
    by_cases hek : e.1 = k
    · simp only [List.map_cons, hek, beq_self_eq_true, if_true]
      rw [mapGet_cons, mapGet_cons]
      rw [if_neg (Ne.symm h), if_neg (fun hc => h (hek ▸ hc).symm)]
      exact ih
    · have hbeq : (e.1 == k) = false := by simp [hek]
      simp only [List.map_cons, hbeq, Bool.false_eq_true, if_false]
      rw [mapGet_cons, mapGet_cons]
      by_cases h2 : e.1 = k2
      · simp [h2]
      · rw [if_neg h2, if_neg h2]
        simpa using ih

theorem mapGet_append_single_ne {κ β : Type} [DecidableEq κ] (m : List (κ × β)) (k k2 : κ)
    (v : β) (h : k2 ≠ k) :
    mapGet (m ++ [(k, v)]) k2 = mapGet m k2 := by
  induction m with
  | nil => simp [mapGet, mapGet_cons, Ne.symm h]
  | cons e m ih =>
    rw [List.cons_append, mapGet_cons, mapGet_cons]
    by_cases h2 : e.1 = k2 <;> simp [h2, ih]

theorem mapGet_mapSet_ne {κ β : Type} [DecidableEq κ] (m : List (κ × β)) (k k2 : κ) (v : β)
    (h : k2 ≠ k) : mapGet (mapSet m k v) k2 = mapGet m k2 := by
  unfold mapSet
  by_cases ha : (m.any fun e => e.1 == k) = true
  · rw [if_pos ha]
    exact mapGet_replace_ne m k k2 v h
  · rw [if_neg ha]
    exact mapGet_append_single_ne m k k2 v h

theorem mapGet_mapModify_self {κ β : Type} [DecidableEq κ] (m : List (κ × β)) (k : κ)
    (f : β → β) : mapGet (mapModify m k f) k = (mapGet m k).map f := by
  induction m with
  | nil => simp [mapGet, mapModify]
  | cons e m ih =>
    by_cases hek : e.1 = k
    · simp only [mapModify, List.map_cons, hek, beq_self_eq_true, if_true]
      rw [mapGet_cons, mapGet_cons]
      simp [hek]
    · have hbeq : (e.1 == k) = false := by simp [hek]
      simp only [mapModify, List.map_cons, hbeq, Bool.false_eq_true, if_false]
      rw [mapGet_cons, mapGet_cons, if_neg hek, if_neg hek]
      exact ih

theorem mapGet_mapModify_ne {κ β : Type} [DecidableEq κ] (m : List (κ × β)) (k k2 : κ)
    (f : β → β) (h : k2 ≠ k) : mapGet (mapModify m k f) k2 = mapGet m k2 := by
  induction m with
  | nil => simp [mapGet, mapModify]
  | cons e m ih =>
    by_cases hek : e.1 = k
    · simp only [mapModify, List.map_cons, hek, beq_self_eq_true, if_true]
      rw [mapGet_cons, mapGet_cons]
      simp only [hek]
      rw [if_neg (Ne.symm h), if_neg (Ne.symm h)]
      simpa [mapModify] using ih
    · have hbeq : (e.1 == k) = false := by simp [hek]
      simp only [mapModify, List.map_cons, hbeq, Bool.false_eq_true, if_false]
      rw [mapGet_cons, mapGet_cons]
      by_cases h2 : e.1 = k2
      · simp [h2]
      · rw [if_neg h2, if_neg h2]
        simpa [mapModify] using ih

theorem mapGet_mapValues {κ β γ : Type} [DecidableEq κ] (m : List (κ × β)) (k : κ)
    (h : β → γ) : mapGet (m.map fun e => (e.1, h e.2)) k = (mapGet m k).map h := by
  induction m with
  | nil => simp [mapGet]
  | cons e m ih =>
    rw [List.map_cons, mapGet_cons, mapGet_cons]
    by_cases h2 : e.1 = k <;> simp [h2, ih]

theorem mapKeys_mapSet {κ β : Type} [DecidableEq κ] (m : List (κ × β)) (k : κ) (v : β) :
    mapKeys (mapSet m k v) = if k ∈ mapKeys m then mapKeys m else mapKeys m ++ [k] := by
  unfold mapSet
  by_cases h : k ∈ mapKeys m
  · rw [if_pos ((any_key_iff m k).mpr h), if_pos h]
    unfold mapKeys
    rw [List.map_map]
    apply List.map_congr_left
    intro e _
    by_cases he : e.1 = k <;> simp [he]
  · rw [if_neg (fun hc => h ((any_key_iff m k).mp hc)), if_neg h]
    simp [mapKeys]

theorem mapDelete_sublist {κ β : Type} [DecidableEq κ] (m : List (κ × β)) (k : κ) :
    (mapDelete m k).Sublist m :=
  List.filter_sublist m

theorem mapKeys_mapDelete_sublist {κ β : Type} [DecidableEq κ] (m : List (κ × β)) (k : κ) :
    (mapKeys (mapDelete m k)).Sublist (mapKeys m) :=
  (mapDelete_sublist m k).map Prod.fst

theorem not_mem_mapKeys_mapDelete {κ β : Type} [DecidableEq κ] (m : List (κ × β)) (k : κ) :
    k ∉ mapKeys (mapDelete m k) := by
  intro hc
  unfold mapKeys mapDelete at hc
  rcases List.mem_map.mp hc with ⟨e, hmem, hfst⟩
  have h2 := (List.mem_filter.mp hmem).2
  rw [hfst] at h2
  simp at h2

theorem mem_mapSet {κ β : Type} [DecidableEq κ] {m : List (κ × β)} {k : κ} {v : β}
    {e : κ × β} (h : e ∈ mapSet m k v) : e = (k, v) ∨ (e ∈ m ∧ e.1 ≠ k) := by
  unfold mapSet at h
  by_cases ha : (m.any fun x => x.1 == k) = true
  · rw [if_pos ha] at h
    rcases List.mem_map.mp h with ⟨a, hmem, heq⟩
    by_cases hak : a.1 = k
    · left
      simp [hak] at heq
      exact heq.symm
    · right
      have : (a.1 == k) = false := by simp [hak]
      rw [this] at heq
      simp at heq
      exact ⟨heq ▸ hmem, heq ▸ hak⟩
  · rw [if_neg ha] at h
    rcases List.mem_append.mp h with h | h
    · right
      refine ⟨h, fun hc => ?_⟩
      have : (m.any fun x => x.1 == k) = true := by
        refine List.any_eq_true.mpr ⟨e, h, ?_⟩
        show (e.1 == k) = true
        exact beq_iff_eq.mpr hc
      exact ha this
    · left
      simpa using h

theorem mem_mapModify {κ β : Type} [DecidableEq κ] {m : List (κ × β)} {k : κ} {f : β → β}
    {e : κ × β} (h : e ∈ mapModify m k f) :
    ∃ e0, e0 ∈ m ∧ ((e0.1 = k ∧ e = (e0.1, f e0.2)) ∨ (e0.1 ≠ k ∧ e = e0)) := by
  unfold mapModify at h
  rcases List.mem_map.mp h with ⟨a, hmem, heq⟩
  by_cases hak : a.1 = k
  · refine ⟨a, hmem, Or.inl ⟨hak, ?_⟩⟩
    have hb : (a.1 == k) = true := beq_iff_eq.mpr hak
    simp only [hb, if_true] at heq
    exact heq.symm
  · refine ⟨a, hmem, Or.inr ⟨hak, ?_⟩⟩
    have : (a.1 == k) = false := by simp [hak]
    rw [this] at heq
    simp at heq
    exact heq.symm

theorem mapGet_mem {κ β : Type} [DecidableEq κ] {m : List (κ × β)} {k : κ} {v : β}
    (h : mapGet m k = some v) : (k, v) ∈ m := by
  unfold mapGet at h
  rcases Option.map_eq_some'.mp h with ⟨e, hfind, hv⟩
  have hmem := List.mem_of_find?_eq_some hfind
  have hp := List.find?_some hfind
  have hk : e.1 = k := beq_iff_eq.mp hp
  have : e = (k, v) := by
    cases e
    simp only at hk hv
    rw [hk, hv]
  exact this ▸ hmem

theorem mapGet_of_mem_nodup {κ β : Type} [DecidableEq κ] {m : List (κ × β)} {e : κ × β}
    (hnd : (mapKeys m).Nodup) (hmem : e ∈ m) : mapGet m e.1 = some e.2 := by
  induction m with
  | nil => simp at hmem
  | cons a m ih =>
    rcases List.mem_cons.mp hmem with rfl | hmem2
    · rw [mapGet_cons, if_pos rfl]
    · have hnd2 : (mapKeys m).Nodup := (List.nodup_cons.mp hnd).2
      have hane : a.1 ≠ e.1 := by
        intro hc
        have : e.1 ∈ mapKeys m := List.mem_map.mpr ⟨e, hmem2, rfl⟩
        exact (List.nodup_cons.mp hnd).1 (hc ▸ this)
      rw [mapGet_cons, if_neg hane]
      exact ih hnd2 hmem2

/-! ## Projection lemmas for the operations -/

theorem markWork_persistentWork (q : Queue) : (markWork q).persistentWork = q.persistentWork := by
  unfold markWork
  split <;> rfl

theorem markWork_oneTimeWork (q : Queue) : (markWork q).oneTimeWork = q.oneTimeWork := by
  unfold markWork
  split <;> rfl

theorem markWork_pipelines (q : Queue) : (markWork q).pipelines = q.pipelines := by
  unfold markWork
  split <;> rfl

theorem markWork_nextWorkId (q : Queue) : (markWork q).nextWorkId = q.nextWorkId := by
  unfold markWork
  split <;> rfl

theorem markWork_nextGen (q : Queue) : (markWork q).nextGen = q.nextGen := by
  unfold markWork
  split <;> rfl

theorem runQueued_fst (q : Queue) :
    (runQueued q).1 = { q with hasWork := false, oneTimeWork := [] } := by
  unfold runQueued
  split
  · rfl
  · split <;> rfl

theorem setResource_persistentWork (q : Queue) (pid : PipelineId) (gid bid gen : Nat)
    (r : Option Resource) :
    (setResource q pid gid bid gen r).persistentWork = q.persistentWork := by
  unfold setResource
  split
  · rfl
  · split
    · rfl
    · split
      · rfl
      · rw [markWork_persistentWork]
        rfl

theorem setResource_oneTimeWork (q : Queue) (pid : PipelineId) (gid bid gen : Nat)
    (r : Option Resource) :
    (setResource q pid gid bid gen r).oneTimeWork = q.oneTimeWork := by
  unfold setResource
  split
  · rfl
  · split
    · rfl
    · split
      · rfl
      · rw [markWork_oneTimeWork]
        rfl

theorem setResource_nextGen (q : Queue) (pid : PipelineId) (gid bid gen : Nat)
    (r : Option Resource) :
    (setResource q pid gid bid gen r).nextGen = q.nextGen := by
  unfold setResource
  split
  · rfl
  · split
    · rfl
    · split
      · rfl
      · rw [markWork_nextGen]
        rfl

theorem forEachBindGroup_fst_persistentWork (q : Queue) (pid : PipelineId) (pobj : Nat) :
    (forEachBindGroup q pid pobj).1.persistentWork = q.persistentWork := by
  unfold forEachBindGroup
  split <;> rfl

theorem forEachBindGroup_fst_oneTimeWork (q : Queue) (pid : PipelineId) (pobj : Nat) :
    (forEachBindGroup q pid pobj).1.oneTimeWork = q.oneTimeWork := by
  unfold forEachBindGroup
  split <;> rfl

theorem forEachBindGroup_fst_nextGen (q : Queue) (pid : PipelineId) (pobj : Nat) :
    (forEachBindGroup q pid pobj).1.nextGen = q.nextGen := by
  unfold forEachBindGroup
  split <;> rfl

theorem updateWork_pipelines (q : Queue) (slot : Nat) (r : Option GPUWork) (ef : Bool) :
    (updateWork q slot r ef).pipelines = q.pipelines := by
  unfold updateWork
  match r with
  | some f =>
    dsimp only
    split <;> rw [markWork_pipelines]
  | none => rfl

theorem updateWork_nextGen (q : Queue) (slot : Nat) (r : Option GPUWork) (ef : Bool) :
    (updateWork q slot r ef).nextGen = q.nextGen := by
  unfold updateWork
  match r with
  | some f =>
    dsimp only
    split <;> rw [markWork_nextGen]
  | none => rfl

/-! ## Work-id uniqueness invariant and claim C1 -/

/-- Slot ids across the two pending work sets are pairwise distinct: a slot
lives in at most one of the two sets, and each set's keys are unique.  This
holds in every state reachable through the public API. -/
def WorkIdsNodup (q : Queue) : Prop :=
  (mapKeys q.persistentWork ++ mapKeys q.oneTimeWork).Nodup

theorem nodup_set_delete {κ β : Type} [DecidableEq κ] (P O : List (κ × β)) (k : κ) (v : β)
    (h : (mapKeys P ++ mapKeys O).Nodup) :
    (mapKeys (mapSet P k v) ++ mapKeys (mapDelete O k)).Nodup := by
  rcases List.nodup_append.mp h with ⟨hP, hO, hD⟩
  have hO2 : (mapKeys (mapDelete O k)).Nodup :=
    hO.sublist (mapKeys_mapDelete_sublist O k)
  have hsub := (mapKeys_mapDelete_sublist O k).subset
  rw [mapKeys_mapSet]
  by_cases hk : k ∈ mapKeys P
  · rw [if_pos hk]
    exact List.nodup_append.mpr ⟨hP, hO2, fun a haP haO2 => hD haP (hsub haO2)⟩
  · rw [if_neg hk, List.append_assoc]
    refine List.nodup_append.mpr ⟨hP, ?_, ?_⟩
    · refine List.nodup_append.mpr ⟨List.nodup_singleton k, hO2, ?_⟩
      intro a ha haO2
      rw [List.mem_singleton] at ha
      exact not_mem_mapKeys_mapDelete O k (ha ▸ haO2)
    · intro a haP hmem
      rcases List.mem_append.mp hmem with ha | haO2
      · rw [List.mem_singleton] at ha
        exact hk (ha ▸ haP)
      · exact hD haP (hsub haO2)

theorem workIdsNodup_updateWork (q : Queue) (slot : Nat) (r : Option GPUWork) (ef : Bool)
    (h : WorkIdsNodup q) : WorkIdsNodup (updateWork q slot r ef) := by
  unfold WorkIdsNodup updateWork
  match r with
  | some f =>
    dsimp only
    cases ef with
    | true =>
      rw [if_pos rfl, markWork_persistentWork, markWork_oneTimeWork]
      exact nodup_set_delete q.persistentWork q.oneTimeWork slot f h
    | false =>
      rw [if_neg (by simp), markWork_persistentWork, markWork_oneTimeWork]
      rw [List.nodup_append_comm]
      exact nodup_set_delete q.oneTimeWork q.persistentWork slot f
        (List.nodup_append_comm.mp h)
  | none =>
    refine h.sublist ?_
    exact (mapKeys_mapDelete_sublist q.persistentWork slot).append
      (mapKeys_mapDelete_sublist q.oneTimeWork slot)

theorem workIdsNodup_step (q : Queue) (op : Op) (h : WorkIdsNodup q) :
    WorkIdsNodup (step q op) := by
  cases op with
  | reserve => exact h
  | update slot r ef => exact workIdsNodup_updateWork q slot r ef h
  | makeB pid gid bid => exact h
  | setRes pid gid bid gen r =>
    show WorkIdsNodup (setResource q pid gid bid gen r)
    unfold WorkIdsNodup
    rw [setResource_persistentWork, setResource_oneTimeWork]
    exact h
  | flush =>
    show WorkIdsNodup (runQueued q).1
    unfold WorkIdsNodup
    rw [runQueued_fst]
    simp only [mapKeys, List.map_nil, List.append_nil]
    exact (List.nodup_append.mp h).1
  | resolve pid pobj =>
    show WorkIdsNodup (forEachBindGroup q pid pobj).1
    unfold WorkIdsNodup
    rw [forEachBindGroup_fst_persistentWork, forEachBindGroup_fst_oneTimeWork]
    exact h

theorem workIdsNodup_init : WorkIdsNodup initQueue := by
  unfold WorkIdsNodup initQueue
  simp [mapKeys]

theorem workIdsNodup_exec (s : List Op) (q : Queue) (h : WorkIdsNodup q) :
    WorkIdsNodup (exec s q) := by
  induction s generalizing q with
  | nil => exact h
  | cons op s ih => exact ih (step q op) (workIdsNodup_step q op h)

/-- C1: in every state reachable through the public API, a flush
(`runQueued`) iterates exactly the pending persistent and one-time entries
(`flushList` is a permutation of them), and it invokes them in strictly
ascending slot-id order — the order in which `reserveSlot` allocated the
ids — regardless of the order or recency of the `update` calls that last
installed the recorders. -/
theorem runQueued_ascending_slot_id_order (s : List Op) :
    (flushList (exec s initQueue)).Perm
      ((exec s initQueue).persistentWork ++ (exec s initQueue).oneTimeWork) ∧
    List.Pairwise (fun a b : Nat × GPUWork => a.1 < b.1) (flushList (exec s initQueue)) := by
  have hinv : WorkIdsNodup (exec s initQueue) :=
    workIdsNodup_exec s initQueue workIdsNodup_init
  have hperm : (flushList (exec s initQueue)).Perm
      ((exec s initQueue).persistentWork ++ (exec s initQueue).oneTimeWork) :=
    List.perm_insertionSort slotLe _
  refine ⟨hperm, ?_⟩
  have hsorted : List.Sorted slotLe (flushList (exec s initQueue)) :=
    List.sorted_insertionSort slotLe _
  have h2 : (((exec s initQueue).persistentWork ++ (exec s initQueue).oneTimeWork).map
      Prod.fst).Nodup := by
    have h3 := hinv
    unfold WorkIdsNodup mapKeys at h3
    rwa [← List.map_append] at h3
  have hkeys : ((flushList (exec s initQueue)).map Prod.fst).Nodup :=
    ((hperm.map Prod.fst).symm).nodup h2
  have hne : List.Pairwise (fun a b : Nat × GPUWork => a.1 ≠ b.1)
      (flushList (exec s initQueue)) := List.pairwise_map.mp hkeys
  exact (hsorted.and hne).imp fun hab => lt_of_le_of_ne hab.1 hab.2

/-! ## Claims C2 and C3: one-time drain and retirement -/

/-- An operation that can (re)install slot `i` into a work set: a call of
the slot's update closure carrying a recorder. -/
def activates (i : Nat) : Op → Prop
  | .update slot (some _) _ => slot = i
  | _ => False

theorem not_mem_mapKeys_mapSet {κ β : Type} [DecidableEq κ] {m : List (κ × β)} {i k : κ}
    (v : β) (h : i ∉ mapKeys m) (hne : i ≠ k) : i ∉ mapKeys (mapSet m k v) := by
  rw [mapKeys_mapSet]
  by_cases hk : k ∈ mapKeys m
  · rw [if_pos hk]
    exact h
  · rw [if_neg hk]
    intro hc
    rcases List.mem_append.mp hc with hc | hc
    · exact h hc
    · rw [List.mem_singleton] at hc
      exact hne hc

theorem not_mem_mapKeys_mapDelete_of {κ β : Type} [DecidableEq κ] {m : List (κ × β)}
    {i : κ} (k : κ) (h : i ∉ mapKeys m) : i ∉ mapKeys (mapDelete m k) :=
  fun hc => h ((mapKeys_mapDelete_sublist m k).subset hc)

theorem slot_not_pending_step (q : Queue) (i : Nat) (op : Op)
    (hp : i ∉ mapKeys q.persistentWork) (ho : i ∉ mapKeys q.oneTimeWork)
    (hop : ¬ activates i op) :
    i ∉ mapKeys (step q op).persistentWork ∧ i ∉ mapKeys (step q op).oneTimeWork := by
  cases op with
  | reserve => exact ⟨hp, ho⟩
  | update slot r ef =>
    show i ∉ mapKeys (updateWork q slot r ef).persistentWork
      ∧ i ∉ mapKeys (updateWork q slot r ef).oneTimeWork
    match r with
    | some f =>
      have hne : i ≠ slot := by
        intro hc
        exact hop (by simp [activates, hc])
      unfold updateWork
      dsimp only
      cases ef with
      | true =>
        rw [if_pos rfl]
        rw [markWork_persistentWork, markWork_oneTimeWork]
        exact ⟨not_mem_mapKeys_mapSet f hp hne, not_mem_mapKeys_mapDelete_of slot ho⟩
      | false =>
        rw [if_neg (by simp)]
        rw [markWork_persistentWork, markWork_oneTimeWork]
        exact ⟨not_mem_mapKeys_mapDelete_of slot hp, not_mem_mapKeys_mapSet f ho hne⟩
    | none =>
      exact ⟨not_mem_mapKeys_mapDelete_of slot hp, not_mem_mapKeys_mapDelete_of slot ho⟩
  | makeB pid gid bid => exact ⟨hp, ho⟩
  | setRes pid gid bid gen r =>
    show i ∉ mapKeys (setResource q pid gid bid gen r).persistentWork
      ∧ i ∉ mapKeys (setResource q pid gid bid gen r).oneTimeWork
    rw [setResource_persistentWork, setResource_oneTimeWork]
    exact ⟨hp, ho⟩
  | flush =>
    show i ∉ mapKeys (runQueued q).1.persistentWork ∧ i ∉ mapKeys (runQueued q).1.oneTimeWork
    rw [runQueued_fst]
    exact ⟨hp, by simp [mapKeys]⟩
  | resolve pid pobj =>
    show i ∉ mapKeys (forEachBindGroup q pid pobj).1.persistentWork
      ∧ i ∉ mapKeys (forEachBindGroup q pid pobj).1.oneTimeWork
    rw [forEachBindGroup_fst_persistentWork, forEachBindGroup_fst_oneTimeWork]
    exact ⟨hp, ho⟩

theorem slot_not_pending_exec (q : Queue) (i : Nat) (t : List Op)
    (hp : i ∉ mapKeys q.persistentWork) (ho : i ∉ mapKeys q.oneTimeWork)
    (ht : ∀ op ∈ t, ¬ activates i op) :
    i ∉ mapKeys (exec t q).persistentWork ∧ i ∉ mapKeys (exec t q).oneTimeWork := by
  induction t generalizing q with
  | nil => exact ⟨hp, ho⟩
  | cons op t ih =>
    have h1 := slot_not_pending_step q i op hp ho (ht op (List.mem_cons_self op t))
    exact ih (step q op) h1.1 h1.2 fun op2 hm => ht op2 (List.mem_cons_of_mem op hm)

theorem not_mem_flushList_keys (q : Queue) (i : Nat)
    (hp : i ∉ mapKeys q.persistentWork) (ho : i ∉ mapKeys q.oneTimeWork) :
    i ∉ (flushList q).map Prod.fst := by
  intro hc
  have hperm := (List.perm_insertionSort slotLe
    (q.persistentWork ++ q.oneTimeWork)).map Prod.fst
  have h2 := hperm.mem_iff.mp hc
  rw [List.map_append] at h2
  rcases List.mem_append.mp h2 with h2 | h2
  · exact hp h2
  · exact ho h2

/-- C2: a one-time slot's recorder runs in at most one flush.  `runQueued`
captures the pending entries and clears the one-time set, so a slot `i`
that is not persistent contributes to no later flush as long as no further
`update` call installs a recorder for `i`. -/
theorem oneTime_slot_runs_at_most_once (q : Queue) (i : Nat) (t : List Op)
    (hp : i ∉ mapKeys q.persistentWork)
    (ht : ∀ op ∈ t, ¬ activates i op) :
    i ∉ (flushList (exec t (runQueued q).1)).map Prod.fst := by
  have h0 := runQueued_fst q
  have hp1 : i ∉ mapKeys (runQueued q).1.persistentWork := by
    rw [h0]
    exact hp
  have ho1 : i ∉ mapKeys (runQueued q).1.oneTimeWork := by
    rw [h0]
    simp [mapKeys]
  have h2 := slot_not_pending_exec (runQueued q).1 i t hp1 ho1 ht
  exact not_mem_flushList_keys _ i h2.1 h2.2

/-- The spec's scenario state: slot 1 persistent drawing "A", slot 2
one-time drawing "B". -/
def scenarioQueue : Queue :=
  exec [.reserve, .update 1 (some (.draw "A")) true,
        .reserve, .update 2 (some (.draw "B")) false] initQueue

/-- Witness for C2, on the spec's scenario: the first flush submits
[A, B], the second submits [A] only, and slot 2 is absent from the work
list of the flush after the first. -/
theorem oneTime_slot_runs_at_most_once_witness :
    (runQueued scenarioQueue).2 = .submitted ["A", "B"]
    ∧ (runQueued (runQueued scenarioQueue).1).2 = .submitted ["A"]
    ∧ 2 ∉ (flushList (exec [] (runQueued scenarioQueue).1)).map Prod.fst :=
  ⟨by decide, by decide,
   oneTime_slot_runs_at_most_once scenarioQueue 2 [] (by decide) (by simp)⟩

/-- Counterexample to C3: reserve slot 1, retire it with `update(none)`,
then call `update` with a recorder on the same handle.  The call is not a
no-op — the state changes and the slot draws in the next flush — because
`reserveSlot`'s closure has no permanent-retirement guard. -/
theorem update_after_retire_reactivates :
    exec [.reserve, .update 1 none false, .update 1 (some (.draw "A")) true] initQueue
      ≠ exec [.reserve, .update 1 none false] initQueue
    ∧ (runQueued (exec [.reserve, .update 1 none false,
        .update 1 (some (.draw "A")) true] initQueue)).2 = .submitted ["A"] := by
  exact ⟨by decide, by decide⟩

/-- C3 (amended): after `update(none)` on slot `i`, the slot is removed
from both work sets and appears in no future flush until a later `update`
call installs a recorder on the same handle again (such a call re-activates
the slot — see the counterexample — rather than being a no-op). -/
theorem retired_slot_out_until_reactivated (q : Queue) (i : Nat) (ef : Bool) (t : List Op)
    (ht : ∀ op ∈ t, ¬ activates i op) :
    i ∉ mapKeys (updateWork q i none ef).persistentWork
    ∧ i ∉ mapKeys (updateWork q i none ef).oneTimeWork
    ∧ i ∉ (flushList (exec t (updateWork q i none ef))).map Prod.fst := by
  have hp : i ∉ mapKeys (updateWork q i none ef).persistentWork :=
    not_mem_mapKeys_mapDelete q.persistentWork i
  have ho : i ∉ mapKeys (updateWork q i none ef).oneTimeWork :=
    not_mem_mapKeys_mapDelete q.oneTimeWork i
  have h2 := slot_not_pending_exec _ i t hp ho ht
  exact ⟨hp, ho, not_mem_flushList_keys _ i h2.1 h2.2⟩

/-- Witness for the amended C3: retiring slot 1 (which held persistent
work) removes it from both sets and from the next flush's work list. -/
theorem retired_slot_out_until_reactivated_witness :
    1 ∉ mapKeys (updateWork (exec [.reserve, .update 1 (some (.draw "A")) true] initQueue)
        1 none false).persistentWork
    ∧ 1 ∉ mapKeys (updateWork (exec [.reserve, .update 1 (some (.draw "A")) true] initQueue)
        1 none false).oneTimeWork
    ∧ 1 ∉ (flushList (exec [.flush] (updateWork
        (exec [.reserve, .update 1 (some (.draw "A")) true] initQueue)
        1 none false))).map Prod.fst :=
  retired_slot_out_until_reactivated
    (exec [.reserve, .update 1 (some (.draw "A")) true] initQueue) 1 false [.flush]
    (by simp [activates])

/-! ## Claim C8: one notification per idle-to-busy transition -/

theorem markWork_notified (q : Queue) :
    (markWork q).notified = q.notified + (if q.hasWork then 0 else 1) := by
  unfold markWork
  split <;> simp_all

theorem markWork_hasWork (q : Queue) : (markWork q).hasWork = true := by
  unfold markWork
  split <;> simp_all

/-- C8: the `onHasWork` callback fires at most once per false→true
transition of `hasWork`.  Installing a recorder notifies exactly when
`hasWork` was false and leaves it true (so repeated marking while busy
fires nothing); removing a slot with `update(none)` never notifies and does
not touch the flag; a `setResource` call either leaves the whole state
unchanged or notifies exactly when `hasWork` was false; and a flush clears
the flag without notifying, re-arming the next transition. -/
theorem onHasWork_once_per_transition (q : Queue) (i : Nat) (f : GPUWork) (ef : Bool)
    (pid : PipelineId) (gid bid gen : Nat) (r : Option Resource) :
    ((updateWork q i (some f) ef).notified = q.notified + (if q.hasWork then 0 else 1)
      ∧ (updateWork q i (some f) ef).hasWork = true)
    ∧ ((updateWork q i none ef).notified = q.notified
      ∧ (updateWork q i none ef).hasWork = q.hasWork)
    ∧ (setResource q pid gid bid gen r = q
      ∨ ((setResource q pid gid bid gen r).notified
            = q.notified + (if q.hasWork then 0 else 1)
        ∧ (setResource q pid gid bid gen r).hasWork = true))
    ∧ ((runQueued q).1.notified = q.notified ∧ (runQueued q).1.hasWork = false) := by
  refine ⟨?_, ⟨rfl, rfl⟩, ?_, ?_⟩
  · unfold updateWork
    dsimp only
    cases ef with
    | true =>
      rw [if_pos rfl]
      exact ⟨markWork_notified _, markWork_hasWork _⟩
    | false =>
      rw [if_neg (by simp)]
      exact ⟨markWork_notified _, markWork_hasWork _⟩
  · unfold setResource
    split
    · exact Or.inl rfl
    · split
      · exact Or.inl rfl
      · split
        · exact Or.inl rfl
        · exact Or.inr ⟨markWork_notified _, markWork_hasWork _⟩
  · rw [runQueued_fst]
    exact ⟨rfl, rfl⟩

/-! ## Claim C9: a throwing recorder aborts the whole flush -/

theorem execRecs_error (l : List (Nat × GPUWork)) (acc : List String)
    (h : GPUWork.throws ∈ l.map Prod.snd) : execRecs l acc = .error () := by
  induction l generalizing acc with
  | nil => simp at h
  | cons e l ih =>
    match e with
    | (i, .draw s) =>
      have h2 : GPUWork.throws ∈ l.map Prod.snd := by
        rw [List.map_cons] at h
        rcases List.mem_cons.mp h with hc | hc
        · exact absurd hc.symm (by simp)
        · exact hc
      show execRecs l (acc ++ [s]) = .error ()
      exact ih (acc ++ [s]) h2
    | (i, .throws) => rfl

/-- C9: if any pending recorder throws during a flush, `runQueued`
propagates the exception with nothing submitted to the device queue, the
persistent set is left unchanged (so a retry on the next flush is
possible), and the one-time entries drained at the start of the flush are
lost. -/
theorem throwing_recorder_aborts_submission (q : Queue)
    (h : GPUWork.throws ∈ (q.persistentWork ++ q.oneTimeWork).map Prod.snd) :
    (runQueued q).2 = .threw
    ∧ (runQueued q).1.persistentWork = q.persistentWork
    ∧ (runQueued q).1.oneTimeWork = [] := by
  have hne : (q.persistentWork ++ q.oneTimeWork).isEmpty = false := by
    rcases List.mem_map.mp h with ⟨e, hmem, _⟩
    cases hl : q.persistentWork ++ q.oneTimeWork with
    | nil =>
      rw [hl] at hmem
      simp at hmem
    | cons a l => rfl
  have hmem2 : GPUWork.throws ∈ (flushList q).map Prod.snd := by
    have hperm := (List.perm_insertionSort slotLe
      (q.persistentWork ++ q.oneTimeWork)).map Prod.snd
    exact hperm.mem_iff.mpr h
  refine ⟨?_, ?_, ?_⟩
  · unfold runQueued
    simp only [hne, Bool.false_eq_true, if_false]
    rw [execRecs_error (flushList q) [] hmem2]
  · rw [runQueued_fst]
  · rw [runQueued_fst]

/-- A state with persistent slot 1 drawing "A" and a one-time slot 2 whose
recorder throws. -/
def throwQueue : Queue :=
  exec [.reserve, .update 1 (some (.draw "A")) true,
        .reserve, .update 2 (some .throws) false] initQueue

/-- Witness for C9 at a concrete state with a throwing one-time recorder. -/
theorem throwing_recorder_aborts_submission_witness :
    GPUWork.throws ∈ (throwQueue.persistentWork ++ throwQueue.oneTimeWork).map Prod.snd
    ∧ (runQueued throwQueue).2 = .threw
    ∧ (runQueued throwQueue).1.persistentWork = throwQueue.persistentWork
    ∧ (runQueued throwQueue).1.oneTimeWork = [] :=
  ⟨by decide, throwing_recorder_aborts_submission throwQueue (by decide)⟩

/-! ## Binding-registry lemmas and claims C4 and C6 -/

theorem bindingGet_eq_groupGet_bind (q : Queue) (pid : PipelineId) (gid bid : Nat) :
    bindingGet q pid gid bid = (groupGet q pid gid).bind fun g => mapGet g.bindings bid := by
  unfold bindingGet groupGet
  cases mapGet q.pipelines pid with
  | none => rfl
  | some pd => rfl

theorem groupGet_markWork (q : Queue) (pid : PipelineId) (gid : Nat) :
    groupGet (markWork q) pid gid = groupGet q pid gid := by
  unfold groupGet
  rw [markWork_pipelines]

theorem bindingGet_markWork (q : Queue) (pid : PipelineId) (gid bid : Nat) :
    bindingGet (markWork q) pid gid bid = bindingGet q pid gid bid := by
  unfold bindingGet
  rw [markWork_pipelines]

theorem groupGet_modifyGroup_self (q : Queue) (pid : PipelineId) (gid : Nat)
    (F : BindGroupData → BindGroupData) (pd : PipelineData)
    (hpd : mapGet q.pipelines pid = some pd) :
    groupGet (modifyGroup q pid gid F) pid gid = (mapGet pd.groups gid).map F := by
  unfold groupGet modifyGroup
  dsimp only
  rw [mapGet_mapModify_self, hpd]
  simp only [Option.map_some', Option.some_bind]
  exact mapGet_mapModify_self pd.groups gid F

theorem groupGet_modifyGroup_other (q : Queue) (pid pid2 : PipelineId) (gid gid2 : Nat)
    (F : BindGroupData → BindGroupData) (h : ¬(pid2 = pid ∧ gid2 = gid)) :
    groupGet (modifyGroup q pid gid F) pid2 gid2 = groupGet q pid2 gid2 := by
  unfold groupGet modifyGroup
  dsimp only
  by_cases hp : pid2 = pid
  · subst hp
    rw [mapGet_mapModify_self]
    have hg2 : gid2 ≠ gid := fun hc => h ⟨rfl, hc⟩
    cases hpd : mapGet q.pipelines pid2 with
    | none => rfl
    | some pd =>
      simp only [Option.map_some', Option.some_bind]
      exact mapGet_mapModify_ne pd.groups gid gid2 F hg2
  · rw [mapGet_mapModify_ne q.pipelines pid pid2 _ hp]

/-- The state mutation performed by a live, value-changing `setResource`
call: store the resource and reset the owning group's compiled cache. -/
theorem setResource_change_eq (q : Queue) (pid : PipelineId) (gid bid gen : Nat)
    (r : Option Resource) (b : BindingData)
    (hbg : bindingGet q pid gid bid = some b) (hgen : b.gen = gen)
    (hr : r ≠ b.resource) :
    setResource q pid gid bid gen r
      = markWork (modifyGroup q pid gid fun g2 =>
          { g2 with
            compiled := .undef,
            bindings := mapModify g2.bindings bid
              (fun b2 => { b2 with resource := r }) }) := by
  unfold setResource
  rw [hbg]
  dsimp only
  rw [if_neg (by simp [hgen]), if_neg hr]

/-- C4: a `setResource` call that changes the stored resource of a binding
in group `(pid, gid)` resets that group's compiled cache to `undefined`,
discarding the compiled bind-group entries for every pipeline object at
once, while every other group — in the same pipeline or any other — is left
entirely unchanged. -/
theorem setResource_invalidates_only_owning_group (q : Queue) (pid : PipelineId)
    (gid bid gen : Nat) (r : Option Resource) (pd : PipelineData) (g : BindGroupData)
    (b : BindingData)
    (hpd : mapGet q.pipelines pid = some pd) (hg : mapGet pd.groups gid = some g)
    (hb : mapGet g.bindings bid = some b) (hgen : b.gen = gen) (hr : r ≠ b.resource) :
    (groupGet (setResource q pid gid bid gen r) pid gid).map (fun x => x.compiled)
      = some .undef
    ∧ ∀ (pid2 : PipelineId) (gid2 : Nat), ¬(pid2 = pid ∧ gid2 = gid) →
        groupGet (setResource q pid gid bid gen r) pid2 gid2 = groupGet q pid2 gid2 := by
  have hbg : bindingGet q pid gid bid = some b := by
    unfold bindingGet
    rw [hpd, Option.some_bind, hg, Option.some_bind, hb]
  rw [setResource_change_eq q pid gid bid gen r b hbg hgen hr]
  constructor
  · rw [groupGet_markWork, groupGet_modifyGroup_self _ _ _ _ pd hpd, hg]
    rfl
  · intro pid2 gid2 h2
    rw [groupGet_markWork, groupGet_modifyGroup_other _ _ _ _ _ _ h2]

/-- A state with two compiled bind groups under pipeline "P": group 0
(binding 0 holding resource 7, setter generation 0) and group 1 (binding 0
holding resource 8, setter generation 1), both resolved against pipeline
object 42. -/
def cacheQueue : Queue :=
  exec [.makeB (some "P") 0 0, .setRes (some "P") 0 0 0 (some 7),
        .makeB (some "P") 1 0, .setRes (some "P") 1 0 1 (some 8),
        .resolve (some "P") 42] initQueue

/-- The pipeline data registered under "P" in `cacheQueue`. -/
def cachePd : PipelineData :=
  (mapGet cacheQueue.pipelines (some "P")).getD (freshPipeline none)

/-- Group 0 of `cachePd`. -/
def cacheG0 : BindGroupData :=
  (mapGet cachePd.groups 0).getD (freshGroup 0)

/-- Binding 0 of `cacheG0`. -/
def cacheB0 : BindingData :=
  (mapGet cacheG0.bindings 0).getD { id := 0, gen := 0, resource := none }

/-- Witness for C4: changing group 0's binding from resource 7 to 9 drops
group 0's compiled cache (which held an entry for pipeline object 42) while
group 1's data, including its compiled cache, is untouched. -/
theorem setResource_invalidates_only_owning_group_witness :
    (groupGet (setResource cacheQueue (some "P") 0 0 0 (some 9)) (some "P") 0).map
        (fun x => x.compiled) = some .undef
    ∧ groupGet (setResource cacheQueue (some "P") 0 0 0 (some 9)) (some "P") 1
        = groupGet cacheQueue (some "P") 1 :=
  have h := setResource_invalidates_only_owning_group cacheQueue (some "P") 0 0 0 (some 9)
    cachePd cacheG0 cacheB0 (by decide) (by decide) (by decide) (by decide) (by decide)
  ⟨h.1, h.2 (some "P") 1 (by decide)⟩

/-- C6: the setter returned by `makeBinding` is a silent no-op — it stores
nothing, invalidates no compiled cache, and neither marks work nor notifies
(the state is exactly unchanged) — precisely when the captured binding has
been superseded (the stored generation differs) or the new value is
reference-equal to the stored one; otherwise it stores the resource, resets
the owning group's compiled cache and marks the scheduler as having work. -/
theorem setResource_noop_iff (q : Queue) (pid : PipelineId) (gid bid gen : Nat)
    (r : Option Resource) (pd : PipelineData) (g : BindGroupData) (b : BindingData)
    (hpd : mapGet q.pipelines pid = some pd) (hg : mapGet pd.groups gid = some g)
    (hb : mapGet g.bindings bid = some b) :
    (setResource q pid gid bid gen r = q ↔ (b.gen ≠ gen ∨ r = b.resource))
    ∧ (b.gen = gen → r ≠ b.resource →
        bindingGet (setResource q pid gid bid gen r) pid gid bid
            = some { b with resource := r }
        ∧ (groupGet (setResource q pid gid bid gen r) pid gid).map (fun x => x.compiled)
            = some .undef
        ∧ (setResource q pid gid bid gen r).hasWork = true) := by
  have hbg : bindingGet q pid gid bid = some b := by
    unfold bindingGet
    rw [hpd, Option.some_bind, hg, Option.some_bind, hb]
  have hchange : ∀ hgen : b.gen = gen, ∀ hr : r ≠ b.resource,
      bindingGet (setResource q pid gid bid gen r) pid gid bid
        = some { b with resource := r } := by
    intro hgen hr
    rw [setResource_change_eq q pid gid bid gen r b hbg hgen hr]
    rw [bindingGet_markWork, bindingGet_eq_groupGet_bind]
    rw [groupGet_modifyGroup_self _ _ _ _ pd hpd, hg]
    simp only [Option.map_some', Option.some_bind]
    rw [mapGet_mapModify_self, hb]
    rfl
  constructor
  · constructor
    · intro heq
      by_contra hno
      push_neg at hno
      obtain ⟨hgen, hr⟩ := hno
      have h1 := hchange hgen hr
      rw [heq, hbg] at h1
      have h2 : b.resource = r := congrArg (fun o => (o.getD b).resource) h1
      exact hr h2.symm
    · intro hcase
      unfold setResource
      rw [hbg]
      dsimp only
      rcases hcase with hgen | hres
      · rw [if_pos hgen]
      · by_cases hgen : b.gen ≠ gen
        · rw [if_pos hgen]
        · rw [if_neg hgen, if_pos hres]
  · intro hgen hr
    refine ⟨hchange hgen hr, ?_, ?_⟩
    · rw [setResource_change_eq q pid gid bid gen r b hbg hgen hr]
      rw [groupGet_markWork, groupGet_modifyGroup_self _ _ _ _ pd hpd, hg]
      rfl
    · rw [setResource_change_eq q pid gid bid gen r b hbg hgen hr]
      exact markWork_hasWork _

/-- A state with one binding registered: pipeline "P", group 0, binding 0,
setter generation 0, holding resource 7. -/
def bindQueue2 : Queue :=
  setResource (exec [.makeB (some "P") 0 0] initQueue) (some "P") 0 0 0 (some 7)

/-- The pipeline data of `bindQueue2`. -/
def bindPd2 : PipelineData :=
  (mapGet bindQueue2.pipelines (some "P")).getD (freshPipeline none)

/-- Group 0 of `bindPd2`. -/
def bindG2 : BindGroupData :=
  (mapGet bindPd2.groups 0).getD (freshGroup 0)

/-- Binding 0 of `bindG2`. -/
def bindB2 : BindingData :=
  (mapGet bindG2.bindings 0).getD { id := 0, gen := 0, resource := none }

/-- Witness for C6: with resource 7 stored, setting 7 again is exactly a
no-op, a call through a wrong (superseded) generation is exactly a no-op,
and setting 9 goes through and leaves the scheduler marked as having
work. -/
theorem setResource_noop_iff_witness :
    setResource bindQueue2 (some "P") 0 0 0 (some 7) = bindQueue2
    ∧ setResource bindQueue2 (some "P") 0 0 5 (some 9) = bindQueue2
    ∧ (setResource bindQueue2 (some "P") 0 0 0 (some 9)).hasWork = true :=
  have h7 := setResource_noop_iff bindQueue2 (some "P") 0 0 0 (some 7)
    bindPd2 bindG2 bindB2 (by decide) (by decide) (by decide)
  have h5 := setResource_noop_iff bindQueue2 (some "P") 0 0 5 (some 9)
    bindPd2 bindG2 bindB2 (by decide) (by decide) (by decide)
  have h9 := setResource_noop_iff bindQueue2 (some "P") 0 0 0 (some 9)
    bindPd2 bindG2 bindB2 (by decide) (by decide) (by decide)
  ⟨h7.1.mpr (Or.inr (by decide)), h5.1.mpr (Or.inl (by decide)),
   (h9.2 (by decide) (by decide)).2.2⟩

/-! ## makeBinding and resolveGroup equations, claims C10 and C5 -/

/-- What `makeBinding` does when the pipeline and group already exist: the
group's compiled cache is reset and the binding at `bid` is replaced by a
fresh-generation binding holding no resource. -/
theorem makeBinding_existing_eq (q : Queue) (pid : PipelineId) (gid bid : Nat)
    (pd : PipelineData) (g : BindGroupData)
    (hpd : mapGet q.pipelines pid = some pd) (hg : mapGet pd.groups gid = some g) :
    makeBinding q pid gid bid
      = ({ q with
            pipelines := mapSet q.pipelines pid
              { pd with
                groups := mapSet pd.groups gid
                  { g with
                    compiled := .undef,
                    bindings := mapSet g.bindings bid
                      { id := bid, gen := q.nextGen, resource := none } } },
            nextGen := q.nextGen + 1 }, q.nextGen) := by
  unfold makeBinding
  rw [hpd]
  simp only [Option.getD_some]
  rw [hg]
  simp only [Option.getD_some, Option.isSome_some, if_true]

theorem resolveGroup_emptyGroup (pobj : Nat) (g : BindGroupData)
    (hc : g.compiled = .emptyGroup) :
    resolveGroup pobj g = { group := g, visit := none, created := false } := by
  unfold resolveGroup
  rw [hc]

theorem resolveGroup_undef_empty (pobj : Nat) (g : BindGroupData)
    (hc : g.compiled = .undef) (he : groupEntries g = []) :
    resolveGroup pobj g
      = { group := { g with compiled := .emptyGroup }, visit := none, created := false } := by
  unfold resolveGroup
  rw [hc]
  simp only [he, List.isEmpty_nil, if_true]

theorem resolveGroup_group_id (pobj : Nat) (g : BindGroupData) :
    (resolveGroup pobj g).group.id = g.id := by
  unfold resolveGroup
  rcases hcomp : g.compiled with _ | _ | m
  · dsimp only
    split
    · rfl
    · rfl
  · rfl
  · dsimp only
    rcases hmg : mapGet m pobj with _ | bg
    · dsimp only
      split
      · rfl
      · rfl
    · rfl

theorem resolveGroup_group_bindings (pobj : Nat) (g : BindGroupData) :
    (resolveGroup pobj g).group.bindings = g.bindings := by
  unfold resolveGroup
  rcases hcomp : g.compiled with _ | _ | m
  · dsimp only
    split
    · rfl
    · rfl
  · rfl
  · dsimp only
    rcases hmg : mapGet m pobj with _ | bg
    · dsimp only
      split
      · rfl
      · rfl
    · rfl

/-- C10: superseding `makeBinding` at an existing identity installs a
replacement binding that holds no resource, even when the superseded
binding held one: the stored binding after the call is
`{ id := bid, gen := fresh, resource := none }`, the rebuilt group carries
it, the entry list compiled for the group omits this binding entirely, and
when no other live binding holds a resource the group's entry list is empty,
so resolving it caches the group as "no bind group" and visits nothing. -/
theorem makeBinding_replacement_starts_empty (q : Queue) (pid : PipelineId)
    (gid bid pobj : Nat) (pd : PipelineData) (g : BindGroupData) (b : BindingData)
    (hpd : mapGet q.pipelines pid = some pd) (hg : mapGet pd.groups gid = some g)
    (_hb : mapGet g.bindings bid = some b)
    (hids : ∀ e ∈ g.bindings, e.2.id = e.1) :
    bindingGet (makeBinding q pid gid bid).1 pid gid bid
        = some { id := bid, gen := q.nextGen, resource := none }
    ∧ groupGet (makeBinding q pid gid bid).1 pid gid
        = some { g with
            compiled := .undef,
            bindings := mapSet g.bindings bid
              { id := bid, gen := q.nextGen, resource := none } }
    ∧ bid ∉ (groupEntries { g with
            compiled := CompiledCache.undef,
            bindings := mapSet g.bindings bid
              { id := bid, gen := q.nextGen, resource := none } }).map Prod.fst
    ∧ ((∀ e ∈ g.bindings, e.1 ≠ bid → e.2.resource = none) →
        groupEntries { g with
            compiled := CompiledCache.undef,
            bindings := mapSet g.bindings bid
              { id := bid, gen := q.nextGen, resource := none } } = []
        ∧ resolveGroup pobj { g with
            compiled := CompiledCache.undef,
            bindings := mapSet g.bindings bid
              { id := bid, gen := q.nextGen, resource := none } }
          = { group := { g with
                compiled := CompiledCache.emptyGroup,
                bindings := mapSet g.bindings bid
                  { id := bid, gen := q.nextGen, resource := none } },
              visit := none, created := false }) := by
  have heq := makeBinding_existing_eq q pid gid bid pd g hpd hg
  have hgq : groupGet (makeBinding q pid gid bid).1 pid gid
      = some { g with
          compiled := CompiledCache.undef,
          bindings := mapSet g.bindings bid
            { id := bid, gen := q.nextGen, resource := none } } := by
    rw [heq]
    unfold groupGet
    dsimp only
    rw [mapGet_mapSet_self]
    simp only [Option.some_bind]
    exact mapGet_mapSet_self pd.groups gid _
  refine ⟨?_, hgq, ?_, ?_⟩
  · rw [bindingGet_eq_groupGet_bind, hgq]
    simp only [Option.some_bind]
    exact mapGet_mapSet_self g.bindings bid _
  · intro hc
    rcases List.mem_map.mp hc with ⟨x, hx, hxf⟩
    rcases List.mem_filterMap.mp hx with ⟨e, hmem, hfe⟩
    rcases Option.map_eq_some'.mp hfe with ⟨rsc, hres, hxe⟩
    rcases mem_mapSet hmem with rfl | ⟨hold, hkey⟩
    · simp at hres
    · have hid : e.2.id = e.1 := hids e hold
      rw [← hxe] at hxf
      dsimp only at hxf
      rw [hid] at hxf
      exact hkey hxf
  · intro hothers
    have hent : groupEntries { g with
        compiled := CompiledCache.undef,
        bindings := mapSet g.bindings bid
          { id := bid, gen := q.nextGen, resource := none } } = [] := by
      unfold groupEntries
      dsimp only
      rw [List.filterMap_eq_nil_iff]
      intro e hmem
      rcases mem_mapSet hmem with rfl | ⟨hold, hkey⟩
      · rfl
      · rw [hothers e hold hkey]
        rfl
    exact ⟨hent, resolveGroup_undef_empty pobj _ rfl hent⟩

/-- Witness state for C10: pipeline "P", group 0, binding 0 holds resource
7 under setter generation 0. -/
def replQueue : Queue :=
  setResource (exec [.makeB (some "P") 0 0] initQueue) (some "P") 0 0 0 (some 7)

/-- The pipeline data of `replQueue`. -/
def replPd : PipelineData :=
  (mapGet replQueue.pipelines (some "P")).getD (freshPipeline none)

/-- Group 0 of `replPd`. -/
def replG : BindGroupData :=
  (mapGet replPd.groups 0).getD (freshGroup 0)

/-- Binding 0 of `replG` (holding resource 7). -/
def replB : BindingData :=
  (mapGet replG.bindings 0).getD { id := 0, gen := 0, resource := none }

/-- Witness for C10: superseding the binding that holds resource 7 leaves a
replacement with no resource. -/
theorem makeBinding_replacement_starts_empty_witness :
    bindingGet (makeBinding replQueue (some "P") 0 0).1 (some "P") 0 0
      = some { id := 0, gen := replQueue.nextGen, resource := none } :=
  (makeBinding_replacement_starts_empty replQueue (some "P") 0 0 42 replPd replG replB
    (by decide) (by decide) (by decide) (by decide)).1

/-! ## Claim C5: empty groups are cached as such and skipped -/

/-- The full effect of one `forEachBindGroup` call on a registered
pipeline. -/
theorem forEachBindGroup_eq (q : Queue) (pid : PipelineId) (pobj : Nat)
    (pd : PipelineData) (hpd : mapGet q.pipelines pid = some pd) :
    forEachBindGroup q pid pobj
      = ({ q with
            pipelines := mapModify q.pipelines pid fun p =>
              { p with
                groups := (pd.groups.map fun e => (e.1, resolveGroup pobj e.2)).map
                  fun e => (e.1, e.2.group) } },
         (pd.groups.map fun e => (e.1, resolveGroup pobj e.2)).filterMap
           (fun e => e.2.visit.map fun bg => (bg, e.2.group.id)),
         (pd.groups.map fun e => (e.1, resolveGroup pobj e.2)).filterMap
           fun e => if e.2.created then e.2.visit else none) := by
  unfold forEachBindGroup
  rw [hpd]

theorem resolveGroup_created_gid (pobj : Nat) (g : BindGroupData) (bg : BGObj)
    (hcr : (resolveGroup pobj g).created = true)
    (hv : (resolveGroup pobj g).visit = some bg) : bg.gid = g.id := by
  unfold resolveGroup at hcr hv
  rcases hcomp : g.compiled with _ | _ | m
  · rw [hcomp] at hcr hv
    dsimp only at hcr hv
    by_cases he : (groupEntries g).isEmpty = true
    · rw [if_pos he] at hcr
      simp at hcr
    · rw [if_neg he] at hv
      dsimp only at hv
      injection hv with h
      rw [← h]
  · rw [hcomp] at hcr
    simp at hcr
  · rw [hcomp] at hcr hv
    dsimp only at hcr hv
    rcases hmg : mapGet m pobj with _ | bg2
    · rw [hmg] at hcr hv
      dsimp only at hcr hv
      by_cases he : (groupEntries g).isEmpty = true
      · rw [if_pos he] at hcr
        simp at hcr
      · rw [if_neg he] at hv
        dsimp only at hv
        injection hv with h
        rw [← h]
    · rw [hmg] at hcr
      simp at hcr

theorem mapGet_map_resolve (m : List (Nat × BindGroupData)) (k pobj : Nat) :
    mapGet ((m.map fun e => (e.1, resolveGroup pobj e.2)).map fun e => (e.1, e.2.group)) k
      = (mapGet m k).map fun g => (resolveGroup pobj g).group := by
  induction m with
  | nil => simp [mapGet]
  | cons e m ih =>
    rw [List.map_cons, List.map_cons, mapGet_cons, mapGet_cons]
    by_cases h2 : e.1 = k
    · simp [h2]
    · rw [if_neg h2, if_neg h2]
      exact ih

theorem forEach_skips_group (q : Queue) (pid : PipelineId) (gid pobj : Nat)
    (pd : PipelineData) (g : BindGroupData)
    (hpd : mapGet q.pipelines pid = some pd) (hg : mapGet pd.groups gid = some g)
    (hkeys : (mapKeys pd.groups).Nodup) (hids : ∀ e ∈ pd.groups, e.2.id = e.1)
    (hvis : (resolveGroup pobj g).visit = none)
    (hcr : (resolveGroup pobj g).created = false)
    (hcm : (resolveGroup pobj g).group.compiled = .emptyGroup) :
    gid ∉ ((forEachBindGroup q pid pobj).2.1).map Prod.snd
    ∧ gid ∉ ((forEachBindGroup q pid pobj).2.2).map BGObj.gid
    ∧ (groupGet (forEachBindGroup q pid pobj).1 pid gid).map (fun x => x.compiled)
        = some .emptyGroup := by
  have heq := forEachBindGroup_eq q pid pobj pd hpd
  have hgetg : ∀ e0 : Nat × BindGroupData, e0 ∈ pd.groups → e0.1 = gid → e0.2 = g := by
    intro e0 he0 hkey
    have h1 := mapGet_of_mem_nodup hkeys he0
    rw [hkey, hg] at h1
    exact (Option.some_inj.mp h1).symm
  refine ⟨?_, ?_, ?_⟩
  · intro hc
    rw [heq] at hc
    dsimp only at hc
    rcases List.mem_map.mp hc with ⟨x, hxmem, hx2⟩
    rcases List.mem_filterMap.mp hxmem with ⟨e, hemem, hfe⟩
    rcases List.mem_map.mp hemem with ⟨e0, he0, rfl⟩
    dsimp only at hfe
    rcases Option.map_eq_some'.mp hfe with ⟨bg, hbg, hxeq⟩
    have hid : e0.1 = gid := by
      have h1 : x.2 = (resolveGroup pobj e0.2).group.id := by rw [← hxeq]
      rw [resolveGroup_group_id] at h1
      rw [hids e0 he0] at h1
      rw [← h1, hx2]
    rw [hgetg e0 he0 hid, hvis] at hbg
    exact Option.noConfusion hbg
  · intro hc
    rw [heq] at hc
    dsimp only at hc
    rcases List.mem_map.mp hc with ⟨x, hxmem, hx2⟩
    rcases List.mem_filterMap.mp hxmem with ⟨e, hemem, hfe⟩
    rcases List.mem_map.mp hemem with ⟨e0, he0, rfl⟩
    dsimp only at hfe
    by_cases hcre : (resolveGroup pobj e0.2).created = true
    · rw [if_pos hcre] at hfe
      have hgid : x.gid = e0.2.id := resolveGroup_created_gid pobj e0.2 x hcre hfe
      have hid : e0.1 = gid := by
        rw [← hids e0 he0, ← hgid, hx2]
      rw [hgetg e0 he0 hid, hcr] at hcre
      exact Bool.noConfusion hcre
    · rw [if_neg hcre] at hfe
      exact Option.noConfusion hfe
  · rw [heq]
    unfold groupGet
    rw [mapGet_mapModify_self, hpd]
    simp only [Option.map_some', Option.some_bind]
    rw [mapGet_map_resolve, hg]
    simp only [Option.map_some']
    rw [hcm]

/-- C5: a group whose live bindings all hold an empty resource at build
time compiles to "no bind group": the first `forEachBindGroup` call never
invokes the visit callback for it, calls `createBindGroup` for no object of
this group, and caches the empty marker in its `compiled` slot; and on any
state where the marker is cached, a further call skips the group via the
marker — visiting nothing, creating nothing, and leaving the marker in
place — until a binding mutation resets the group's cache. -/
theorem emptyGroup_cached_and_skipped (q : Queue) (pid : PipelineId) (gid pobj : Nat)
    (pd : PipelineData) (g : BindGroupData)
    (hpd : mapGet q.pipelines pid = some pd) (hg : mapGet pd.groups gid = some g)
    (hkeys : (mapKeys pd.groups).Nodup) (hids : ∀ e ∈ pd.groups, e.2.id = e.1)
    (hcomp : g.compiled = .undef)
    (hempty : ∀ e ∈ g.bindings, e.2.resource = none) :
    gid ∉ ((forEachBindGroup q pid pobj).2.1).map Prod.snd
    ∧ gid ∉ ((forEachBindGroup q pid pobj).2.2).map BGObj.gid
    ∧ (groupGet (forEachBindGroup q pid pobj).1 pid gid).map (fun x => x.compiled)
        = some .emptyGroup
    ∧ ∀ (q3 : Queue) (pd3 : PipelineData) (g3 : BindGroupData) (pobj3 : Nat),
        mapGet q3.pipelines pid = some pd3 → mapGet pd3.groups gid = some g3 →
        (mapKeys pd3.groups).Nodup → (∀ e ∈ pd3.groups, e.2.id = e.1) →
        g3.compiled = .emptyGroup →
        gid ∉ ((forEachBindGroup q3 pid pobj3).2.1).map Prod.snd
        ∧ gid ∉ ((forEachBindGroup q3 pid pobj3).2.2).map BGObj.gid
        ∧ (groupGet (forEachBindGroup q3 pid pobj3).1 pid gid).map (fun x => x.compiled)
            = some .emptyGroup := by
  have hent : groupEntries g = [] := by
    unfold groupEntries
    rw [List.filterMap_eq_nil_iff]
    intro e hmem
    rw [hempty e hmem]
    rfl
  have hres := resolveGroup_undef_empty pobj g hcomp hent
  have hfirst := forEach_skips_group q pid gid pobj pd g hpd hg hkeys hids
    (by rw [hres]) (by rw [hres]) (by rw [hres])
  refine ⟨hfirst.1, hfirst.2.1, hfirst.2.2, ?_⟩
  intro q3 pd3 g3 pobj3 hpd3 hg3 hkeys3 hids3 hcomp3
  have hres3 := resolveGroup_emptyGroup pobj3 g3 hcomp3
  exact forEach_skips_group q3 pid gid pobj3 pd3 g3 hpd3 hg3 hkeys3 hids3
    (by rw [hres3]) (by rw [hres3]) (by rw [hres3, hcomp3])

/-- Witness state for C5: pipeline "P" with group 0 whose only binding
holds no resource. -/
def emptyQueue : Queue := exec [.makeB (some "P") 0 0] initQueue

/-- The pipeline data of `emptyQueue`. -/
def emptyPd : PipelineData :=
  (mapGet emptyQueue.pipelines (some "P")).getD (freshPipeline none)

/-- Group 0 of `emptyPd`. -/
def emptyG : BindGroupData := (mapGet emptyPd.groups 0).getD (freshGroup 0)

/-- `emptyQueue` after one `forEachBindGroup` call. -/
def emptyQ1 : Queue := (forEachBindGroup emptyQueue (some "P") 42).1

/-- The pipeline data of `emptyQ1`. -/
def emptyPd1 : PipelineData :=
  (mapGet emptyQ1.pipelines (some "P")).getD (freshPipeline none)

/-- Group 0 of `emptyPd1`. -/
def emptyG1 : BindGroupData := (mapGet emptyPd1.groups 0).getD (freshGroup 0)

/-- Witness for C5: the all-empty group 0 is never visited, the first call
caches the empty marker, and a second call (with a different pipeline
object) still skips it and leaves the marker cached. -/
theorem emptyGroup_cached_and_skipped_witness :
    0 ∉ ((forEachBindGroup emptyQueue (some "P") 42).2.1).map Prod.snd
    ∧ (groupGet emptyQ1 (some "P") 0).map (fun x => x.compiled) = some .emptyGroup
    ∧ 0 ∉ ((forEachBindGroup emptyQ1 (some "P") 43).2.1).map Prod.snd
    ∧ (groupGet (forEachBindGroup emptyQ1 (some "P") 43).1 (some "P") 0).map
        (fun x => x.compiled) = some .emptyGroup :=
  have h := emptyGroup_cached_and_skipped emptyQueue (some "P") 0 42 emptyPd emptyG
    (by decide) (by decide) (by decide) (by decide) (by decide) (by decide)
  have h2 := h.2.2.2 emptyQ1 emptyPd1 emptyG1 43 (by decide) (by decide) (by decide)
    (by decide) (by decide)
  ⟨h.1, h.2.2.1, h2.1, h2.2.2⟩

/-! ## Claim C7: superseding a binding permanently disables the old setter -/

/-- Every generation stored in the binding registry is below `nextGen`:
generation numbers are never reused. -/
def gensBounded (q : Queue) : Prop :=
  ∀ e ∈ q.pipelines, ∀ e2 ∈ e.2.groups, ∀ e3 ∈ e2.2.bindings, e3.2.gen < q.nextGen

/-- The generation stored at an identity. -/
def genAt (q : Queue) (pid : PipelineId) (gid bid : Nat) : Option Nat :=
  (bindingGet q pid gid bid).map fun b => b.gen

/-- A setter handle that can never fire again: its generation lies in the
past and the identity it points at holds a different generation (this is
the observable content of the source's `binding.dropped = true`). -/
def deadSetter (q : Queue) (pid : PipelineId) (gid bid gen : Nat) : Prop :=
  gen < q.nextGen ∧ genAt q pid gid bid ≠ some gen

/-- A dead setter's `setResource` is the identity on the state. -/
theorem setResource_dead (q : Queue) (pid : PipelineId) (gid bid gen : Nat)
    (r : Option Resource) (h : genAt q pid gid bid ≠ some gen) :
    setResource q pid gid bid gen r = q := by
  unfold setResource
  cases hbg : bindingGet q pid gid bid with
  | none => rfl
  | some b =>
    dsimp only
    have hne : b.gen ≠ gen := by
      intro hc
      apply h
      unfold genAt
      rw [hbg]
      simp [hc]
    rw [if_pos hne]

theorem genAt_markWork (q : Queue) (pid : PipelineId) (gid bid : Nat) :
    genAt (markWork q) pid gid bid = genAt q pid gid bid := by
  unfold genAt
  rw [bindingGet_markWork]

theorem genAt_setResource (q : Queue) (pid2 pid : PipelineId) (gid2 bid2 gen2 gid bid : Nat)
    (r : Option Resource) :
    genAt (setResource q pid2 gid2 bid2 gen2 r) pid gid bid = genAt q pid gid bid := by
  unfold setResource
  cases hbg : bindingGet q pid2 gid2 bid2 with
  | none => rfl
  | some b =>
    dsimp only
    by_cases h1 : b.gen ≠ gen2
    · rw [if_pos h1]
    · rw [if_neg h1]
      by_cases h2 : r = b.resource
      · rw [if_pos h2]
      · rw [if_neg h2]
        rw [genAt_markWork]
        unfold genAt bindingGet modifyGroup
        dsimp only
        by_cases hp : pid = pid2
        · subst hp
          rw [mapGet_mapModify_self]
          cases hpd : mapGet q.pipelines pid with
          | none => rfl
          | some pd =>
            simp only [Option.map_some', Option.some_bind]
            by_cases hgd : gid = gid2
            · subst hgd
              rw [mapGet_mapModify_self]
              cases hg : mapGet pd.groups gid with
              | none => rfl
              | some g =>
                simp only [Option.map_some', Option.some_bind]
                by_cases hbd : bid = bid2
                · subst hbd
                  rw [mapGet_mapModify_self]
                  cases hgb : mapGet g.bindings bid with
                  | none => rfl
                  | some b2 => rfl
                · rw [mapGet_mapModify_ne _ _ _ _ hbd]
            · rw [mapGet_mapModify_ne _ _ _ _ hgd]
        · rw [mapGet_mapModify_ne _ _ _ _ hp]

theorem genAt_forEachBindGroup (q : Queue) (pid2 pid : PipelineId) (pobj gid bid : Nat) :
    genAt (forEachBindGroup q pid2 pobj).1 pid gid bid = genAt q pid gid bid := by
  cases hpd : mapGet q.pipelines pid2 with
  | none =>
    unfold forEachBindGroup
    rw [hpd]
  | some pd =>
    rw [forEachBindGroup_eq q pid2 pobj pd hpd]
    unfold genAt bindingGet
    dsimp only
    by_cases hp : pid = pid2
    · subst hp
      rw [mapGet_mapModify_self]
      rw [hpd]
      simp only [Option.map_some', Option.some_bind]
      rw [mapGet_map_resolve]
      cases hg : mapGet pd.groups gid with
      | none => rfl
      | some g =>
        simp only [Option.map_some', Option.some_bind]
        rw [resolveGroup_group_bindings]
    · rw [mapGet_mapModify_ne _ _ _ _ hp]

/-- The pipeline record `makeBinding` starts from (existing or fresh). -/
def mbBase (q : Queue) (pid : PipelineId) : PipelineData :=
  (mapGet q.pipelines pid).getD (freshPipeline pid)

/-- The group record `makeBinding` starts from (existing or fresh). -/
def mbGroupBase (q : Queue) (pid : PipelineId) (gid : Nat) : BindGroupData :=
  (mapGet (mbBase q pid).groups gid).getD (freshGroup gid)

/-- The group record `makeBinding` stores back: compiled cache cleared when
the group pre-existed, and the binding at `bid` replaced by a
fresh-generation empty binding. -/
def mbGroup (q : Queue) (pid : PipelineId) (gid bid : Nat) : BindGroupData :=
  let g0 := mbGroupBase q pid gid
  let g1 := if (mapGet (mbBase q pid).groups gid).isSome
    then { g0 with compiled := .undef } else g0
  { g1 with
    bindings := mapSet g1.bindings bid { id := bid, gen := q.nextGen, resource := none } }

/-- The pipeline record `makeBinding` stores back. -/
def mbPipeline (q : Queue) (pid : PipelineId) (gid bid : Nat) : PipelineData :=
  { mbBase q pid with groups := mapSet (mbBase q pid).groups gid (mbGroup q pid gid bid) }

theorem makeBinding_decomp (q : Queue) (pid : PipelineId) (gid bid : Nat) :
    makeBinding q pid gid bid
      = ({ q with
            pipelines := mapSet q.pipelines pid (mbPipeline q pid gid bid),
            nextGen := q.nextGen + 1 }, q.nextGen) := rfl

theorem mbGroup_bindings (q : Queue) (pid : PipelineId) (gid bid : Nat) :
    (mbGroup q pid gid bid).bindings
      = mapSet (mbGroupBase q pid gid).bindings bid
          { id := bid, gen := q.nextGen, resource := none } := by
  unfold mbGroup
  dsimp only
  split <;> rfl

theorem mbBase_groups_bind (q : Queue) (pid : PipelineId) (gid bid : Nat) :
    ((mapGet (mbBase q pid).groups gid).bind fun g => mapGet g.bindings bid)
      = bindingGet q pid gid bid := by
  unfold mbBase bindingGet
  cases hpd : mapGet q.pipelines pid with
  | none => simp [freshPipeline, mapGet]
  | some pd => rfl

theorem mapGet_mbGroupBase_bindings (q : Queue) (pid : PipelineId) (gid bid : Nat) :
    mapGet (mbGroupBase q pid gid).bindings bid = bindingGet q pid gid bid := by
  unfold mbGroupBase
  rw [← mbBase_groups_bind q pid gid bid]
  cases hg : mapGet (mbBase q pid).groups gid with
  | none => simp [freshGroup, mapGet]
  | some g => rfl

theorem bindingGet_makeBinding (q : Queue) (pid2 pid : PipelineId) (gid2 bid2 gid bid : Nat) :
    bindingGet (makeBinding q pid2 gid2 bid2).1 pid gid bid
      = if pid = pid2 ∧ gid = gid2 ∧ bid = bid2
        then some { id := bid2, gen := q.nextGen, resource := none }
        else bindingGet q pid gid bid := by
  rw [makeBinding_decomp]
  by_cases hp : pid = pid2
  · subst hp
    show (mapGet (mapSet q.pipelines pid (mbPipeline q pid gid2 bid2)) pid).bind _ = _
    rw [mapGet_mapSet_self]
    simp only [Option.some_bind]
    show (mapGet (mbPipeline q pid gid2 bid2).groups gid).bind _ = _
    unfold mbPipeline
    dsimp only
    by_cases hgd : gid = gid2
    · subst hgd
      rw [mapGet_mapSet_self]
      simp only [Option.some_bind]
      rw [mbGroup_bindings]
      by_cases hbd : bid = bid2
      · subst hbd
        rw [mapGet_mapSet_self]
        simp
      · rw [mapGet_mapSet_ne _ _ _ _ hbd, if_neg (fun hc => hbd hc.2.2)]
        exact mapGet_mbGroupBase_bindings q pid gid bid
    · rw [mapGet_mapSet_ne _ _ _ _ hgd, if_neg (fun hc => hgd hc.2.1)]
      exact mbBase_groups_bind q pid gid bid
  · show (mapGet (mapSet q.pipelines pid2 (mbPipeline q pid2 gid2 bid2)) pid).bind _ = _
    rw [mapGet_mapSet_ne _ _ _ _ hp, if_neg (fun hc => hp hc.1)]
    rfl

theorem genAt_makeBinding (q : Queue) (pid2 pid : PipelineId) (gid2 bid2 gid bid : Nat) :
    genAt (makeBinding q pid2 gid2 bid2).1 pid gid bid
      = if pid = pid2 ∧ gid = gid2 ∧ bid = bid2 then some q.nextGen
        else genAt q pid gid bid := by
  unfold genAt
  rw [bindingGet_makeBinding]
  split
  · rfl
  · rfl

theorem gensBounded_of_same (q q2 : Queue) (hp : q2.pipelines = q.pipelines)
    (hn : q.nextGen ≤ q2.nextGen) (hG : gensBounded q) : gensBounded q2 := by
  intro e he e2 he2 e3 he3
  rw [hp] at he
  exact lt_of_lt_of_le (hG e he e2 he2 e3 he3) hn

theorem genAt_congr_pipelines (q q2 : Queue) (pid : PipelineId) (gid bid : Nat)
    (hp : q2.pipelines = q.pipelines) :
    genAt q2 pid gid bid = genAt q pid gid bid := by
  unfold genAt bindingGet
  rw [hp]

theorem gensBounded_makeBinding (q : Queue) (pid : PipelineId) (gid bid : Nat)
    (hG : gensBounded q) : gensBounded (makeBinding q pid gid bid).1 := by
  have hbase : ∀ x2 ∈ (mbBase q pid).groups, ∀ x3 ∈ x2.2.bindings,
      x3.2.gen < q.nextGen := by
    unfold mbBase
    cases hpd : mapGet q.pipelines pid with
    | none =>
      intro x2 hx2
      exact absurd hx2 (List.not_mem_nil x2)
    | some pd =>
      intro x2 hx2 x3 hx3
      exact hG (pid, pd) (mapGet_mem hpd) x2 hx2 x3 hx3
  have hgroupbase : ∀ x3 ∈ (mbGroupBase q pid gid).bindings, x3.2.gen < q.nextGen := by
    unfold mbGroupBase
    cases hg : mapGet (mbBase q pid).groups gid with
    | none =>
      intro x3 hx3
      exact absurd hx3 (List.not_mem_nil x3)
    | some g =>
      intro x3 hx3
      exact hbase (gid, g) (mapGet_mem hg) x3 hx3
  unfold gensBounded
  rw [makeBinding_decomp]
  intro e he e2 he2 e3 he3
  show e3.2.gen < q.nextGen + 1
  rcases mem_mapSet he with rfl | ⟨hold, _⟩
  · rcases mem_mapSet (show e2 ∈ mapSet (mbBase q pid).groups gid (mbGroup q pid gid bid)
        from he2) with rfl | ⟨hold2, _⟩
    · rw [mbGroup_bindings] at he3
      rcases mem_mapSet he3 with rfl | ⟨hold3, _⟩
      · exact Nat.lt_succ_self q.nextGen
      · exact Nat.lt_succ_of_lt (hgroupbase e3 hold3)
    · exact Nat.lt_succ_of_lt (hbase e2 hold2 e3 he3)
  · exact Nat.lt_succ_of_lt (hG e hold e2 he2 e3 he3)

theorem gensBounded_setResource (q : Queue) (pid : PipelineId) (gid bid gen : Nat)
    (r : Option Resource) (hG : gensBounded q) :
    gensBounded (setResource q pid gid bid gen r) := by
  unfold setResource
  cases hbg : bindingGet q pid gid bid with
  | none => exact hG
  | some b =>
    dsimp only
    by_cases h1 : b.gen ≠ gen
    · rw [if_pos h1]
      exact hG
    · rw [if_neg h1]
      by_cases h2 : r = b.resource
      · rw [if_pos h2]
        exact hG
      · rw [if_neg h2]
        intro e he e2 he2 e3 he3
        rw [markWork_pipelines] at he
        unfold modifyGroup at he
        dsimp only at he
        show e3.2.gen < (markWork _).nextGen
        rw [markWork_nextGen]
        rcases mem_mapModify he with ⟨e0, he0, ⟨_, rfl⟩ | ⟨_, rfl⟩⟩
        · dsimp only at he2
          rcases mem_mapModify he2 with ⟨e20, he20, ⟨_, rfl⟩ | ⟨_, rfl⟩⟩
          · dsimp only at he3
            rcases mem_mapModify he3 with ⟨e30, he30, ⟨_, rfl⟩ | ⟨_, rfl⟩⟩
            · exact hG e0 he0 e20 he20 e30 he30
            · exact hG e0 he0 e20 he20 e3 he30
          · exact hG e0 he0 e2 he20 e3 he3
        · exact hG e he0 e2 he2 e3 he3

theorem gensBounded_forEachBindGroup (q : Queue) (pid : PipelineId) (pobj : Nat)
    (hG : gensBounded q) : gensBounded (forEachBindGroup q pid pobj).1 := by
  cases hpd : mapGet q.pipelines pid with
  | none =>
    unfold forEachBindGroup
    rw [hpd]
    exact hG
  | some pd =>
    rw [forEachBindGroup_eq q pid pobj pd hpd]
    intro e he e2 he2 e3 he3
    dsimp only at he
    rcases mem_mapModify he with ⟨e0, he0, ⟨_, rfl⟩ | ⟨_, rfl⟩⟩
    · dsimp only at he2
      rcases List.mem_map.mp he2 with ⟨x1, hx1, rfl⟩
      rcases List.mem_map.mp hx1 with ⟨x0, hx0, rfl⟩
      dsimp only at he3
      rw [resolveGroup_group_bindings] at he3
      exact hG (pid, pd) (mapGet_mem hpd) x0 hx0 e3 he3
    · exact hG e he0 e2 he2 e3 he3

/-- One public operation preserves generation boundedness and keeps a dead
setter dead. -/
theorem deadSetter_step (q : Queue) (op : Op) (pid : PipelineId) (gid bid gen : Nat)
    (hG : gensBounded q) (hD : deadSetter q pid gid bid gen) :
    gensBounded (step q op) ∧ deadSetter (step q op) pid gid bid gen := by
  obtain ⟨hlt, hne⟩ := hD
  cases op with
  | reserve => exact ⟨hG, hlt, hne⟩
  | update slot r2 ef =>
    refine ⟨?_, ?_, ?_⟩
    · show gensBounded (updateWork q slot r2 ef)
      exact gensBounded_of_same q _ (updateWork_pipelines q slot r2 ef)
        (le_of_eq (updateWork_nextGen q slot r2 ef).symm) hG
    · show gen < (updateWork q slot r2 ef).nextGen
      rw [updateWork_nextGen]
      exact hlt
    · show genAt (updateWork q slot r2 ef) pid gid bid ≠ some gen
      rw [genAt_congr_pipelines q _ pid gid bid (updateWork_pipelines q slot r2 ef)]
      exact hne
  | makeB p2 g2 b2 =>
    refine ⟨gensBounded_makeBinding q p2 g2 b2 hG, ?_, ?_⟩
    · show gen < (makeBinding q p2 g2 b2).1.nextGen
      rw [makeBinding_decomp]
      exact Nat.lt_succ_of_lt hlt
    · show genAt (makeBinding q p2 g2 b2).1 pid gid bid ≠ some gen
      rw [genAt_makeBinding]
      split
      · intro hc
        exact absurd (Option.some_inj.mp hc) (Nat.ne_of_gt hlt)
      · exact hne
  | setRes p2 g2 b2 gen2 r2 =>
    refine ⟨gensBounded_setResource q p2 g2 b2 gen2 r2 hG, ?_, ?_⟩
    · show gen < (setResource q p2 g2 b2 gen2 r2).nextGen
      rw [setResource_nextGen]
      exact hlt
    · show genAt (setResource q p2 g2 b2 gen2 r2) pid gid bid ≠ some gen
      rw [genAt_setResource]
      exact hne
  | flush =>
    refine ⟨?_, ?_, ?_⟩
    · show gensBounded (runQueued q).1
      refine gensBounded_of_same q _ ?_ ?_ hG
      · rw [runQueued_fst]
      · rw [runQueued_fst]
    · show gen < (runQueued q).1.nextGen
      rw [runQueued_fst]
      exact hlt
    · show genAt (runQueued q).1 pid gid bid ≠ some gen
      rw [genAt_congr_pipelines q _ pid gid bid (by rw [runQueued_fst])]
      exact hne
  | resolve p2 pobj =>
    refine ⟨gensBounded_forEachBindGroup q p2 pobj hG, ?_, ?_⟩
    · show gen < (forEachBindGroup q p2 pobj).1.nextGen
      rw [forEachBindGroup_fst_nextGen]
      exact hlt
    · show genAt (forEachBindGroup q p2 pobj).1 pid gid bid ≠ some gen
      rw [genAt_forEachBindGroup]
      exact hne

theorem deadSetter_exec (t : List Op) (q : Queue) (pid : PipelineId) (gid bid gen : Nat)
    (hG : gensBounded q) (hD : deadSetter q pid gid bid gen) :
    gensBounded (exec t q) ∧ deadSetter (exec t q) pid gid bid gen := by
  induction t generalizing q with
  | nil => exact ⟨hG, hD⟩
  | cons op t ih =>
    have h1 := deadSetter_step q op pid gid bid gen hG hD
    exact ih (step q op) h1.1 h1.2

/-- C7: calling `makeBinding` again at an identity that already holds a
binding resets the owning group's compiled cache to `undefined` (so the
group is recompiled lazily) and drops the previous slot: the old setter's
generation becomes permanently dead, so every later `setResource` call made
through the previously returned setter — after any further sequence of
public operations — is a no-op. -/
theorem makeBinding_supersedes_old_setter (q : Queue) (pid : PipelineId) (gid bid : Nat)
    (pd : PipelineData) (g : BindGroupData) (b : BindingData)
    (hG : gensBounded q)
    (hpd : mapGet q.pipelines pid = some pd) (hg : mapGet pd.groups gid = some g)
    (hb : mapGet g.bindings bid = some b) :
    (groupGet (makeBinding q pid gid bid).1 pid gid).map (fun x => x.compiled)
        = some .undef
    ∧ deadSetter (makeBinding q pid gid bid).1 pid gid bid b.gen
    ∧ ∀ (t : List Op) (r : Option Resource),
        setResource (exec t (makeBinding q pid gid bid).1) pid gid bid b.gen r
          = exec t (makeBinding q pid gid bid).1 := by
  have hblt : b.gen < q.nextGen := hG (pid, pd) (mapGet_mem hpd) (gid, g) (mapGet_mem hg)
    (bid, b) (mapGet_mem hb)
  have hdead : deadSetter (makeBinding q pid gid bid).1 pid gid bid b.gen := by
    constructor
    · show b.gen < (makeBinding q pid gid bid).1.nextGen
      rw [makeBinding_decomp]
      exact Nat.lt_succ_of_lt hblt
    · rw [genAt_makeBinding, if_pos ⟨rfl, rfl, rfl⟩]
      intro hc
      exact absurd (Option.some_inj.mp hc) (Ne.symm (Nat.ne_of_lt hblt))
  refine ⟨?_, hdead, ?_⟩
  · rw [makeBinding_existing_eq q pid gid bid pd g hpd hg]
    unfold groupGet
    dsimp only
    rw [mapGet_mapSet_self]
    simp only [Option.some_bind]
    rw [mapGet_mapSet_self]
    rfl
  · intro t r
    have hGB := gensBounded_makeBinding q pid gid bid hG
    have h2 := deadSetter_exec t (makeBinding q pid gid bid).1 pid gid bid b.gen hGB hdead
    exact setResource_dead _ pid gid bid b.gen r h2.2.2

instance (q : Queue) : Decidable (gensBounded q) := by
  unfold gensBounded
  infer_instance

/-- Witness for C7: superseding the binding of `replQueue` (whose old
setter has generation 0) invalidates the group's compiled cache, kills
generation 0, and a later `setResource` through the old handle changes
nothing. -/
theorem makeBinding_supersedes_old_setter_witness :
    (groupGet (makeBinding replQueue (some "P") 0 0).1 (some "P") 0).map
        (fun x => x.compiled) = some .undef
    ∧ deadSetter (makeBinding replQueue (some "P") 0 0).1 (some "P") 0 0 replB.gen
    ∧ setResource (exec [.flush] (makeBinding replQueue (some "P") 0 0).1)
        (some "P") 0 0 replB.gen (some 99)
        = exec [.flush] (makeBinding replQueue (some "P") 0 0).1 :=
  have h := makeBinding_supersedes_old_setter replQueue (some "P") 0 0 replPd replG replB
    (by decide) (by decide) (by decide) (by decide)
  ⟨h.1, h.2.1, h.2.2 [.flush] (some 99)⟩
